import Mathlib

/-!
# Shortcut registration in `MainWindow` (painttyDesktop/widgets/mainwindow.cpp)

A shallow embedding of the keyboard-shortcut registry of `MainWindow`:
the member `keyMap_` (a `QMap<QString, bool>`), the four overloads of
`MainWindow::regShortcut`, and the parts of `toolbarInit` / `shortcutInit`
that create key listeners.

Qt's `QKeySequence` is not part of the repository, so the embedding is
parametric in the type `K` of key sequences and in the two library
functions the code uses on it (`QKeySequence(const QString&)` and
`QKeySequence::toString()`).  Callbacks (the template parameters `T`, `U`)
are values of an arbitrary type `cb`.

Further parts of the same file are embedded after the registry: the two
lambdas of a brush shortcut, `onDelayGet`, `onSendPressed`, `getRoomKey` with
`clearAllLayer`, `closeEvent` with `colorGridInit` and `viewInit`, the three
tool slots, the export functions and `onBrushSettingsChanged`.  The settings
store is parametric in the type `V` of a stored `QVariant` and in the
conversions the code applies to it; the export functions are parametric in
the `QChar` functions behind trimming and case folding; the brush controls
are parametric in the widget classes that are not part of this file.
-/

namespace Paintty

/-! ## Qt containers and values -/

/-- Qt's `QMap<Key, T>` as an association list holding at most one entry per key.
Only `contains` and `insert` are used by the code; the iteration order of a
`QMap` is never observed there, so entries are kept in insertion order. -/
structure QMap (α β : Type) where
  entries : List (α × β)
deriving DecidableEq, Repr

/-- Default-constructed `QMap`. -/
def QMap.empty {α β : Type} : QMap α β := ⟨[]⟩

/-- The member `QMap::contains(key)`. -/
def QMap.contains {α β : Type} [DecidableEq α] (m : QMap α β) (key : α) : Bool :=
  m.entries.any (fun p => decide (p.1 = key))

/-- The member `QMap::insert(key, value)`: a value already stored under `key` is replaced. -/
def QMap.insert {α β : Type} [DecidableEq α] (m : QMap α β) (key : α) (value : β) : QMap α β :=
  ⟨(key, value) :: m.entries.filter (fun p => decide (p.1 ≠ key))⟩

/-- The member `QMap::size()`. -/
def QMap.size {α β : Type} (m : QMap α β) : Nat := m.entries.length

/-- Qt's `QVariant`, restricted to the kinds of value a shortcut record holds. -/
inductive QVariant where
  | invalid
  | string (s : String)
  | int (i : Int)
deriving DecidableEq, Repr

/-- The member `QVariant::toString()`: an invalid variant converts to the empty string. -/
def QVariant.toString : QVariant → String
  | .invalid => ""
  | .string s => s
  | .int i => ToString.toString i

/-- Qt's `QVariantMap`, i.e. `QMap<QString, QVariant>`. -/
abbrev QVariantMap := List (String × QVariant)

/-- The operator `QVariantMap::operator[](key)` read as a value: a missing key
yields an invalid `QVariant`, as default construction does. -/
def QVariantMap.get (m : QVariantMap) (key : String) : QVariant :=
  match m.find? (fun p => decide (p.1 = key)) with
  | some p => p.2
  | none => .invalid

/-- The two `QKeySequence` library functions used by `regShortcut`:
the constructor from a `QString` and `toString()`. -/
structure QKeySequenceApi (K : Type) where
  fromString : String → K
  toString : K → String

/-- The configuration collaborator `ShortcutManager` (misc/shortcutmanager.h):
`shortcut(name)` returns the record configured for a logical action name. -/
structure ShortcutManager where
  shortcut : String → QVariantMap

/-! ## Key listeners and the window state -/

/-- The two listener classes instantiated by the code. -/
inductive ShortcutClass where
  | QShortcut
  | SingleShortcut
deriving DecidableEq, Repr

/-- A key listener object parented to the window: its class, the key set on
it, and the slots connected to its `activated` and `inactivated` signals, in
connection order.  (`QShortcut` has no `inactivated` signal; the list is then
empty.) -/
structure ShortcutObject (K cb : Type) where
  cls : ShortcutClass
  key : K
  activated : List cb
  inactivated : List cb
deriving DecidableEq, Repr

/-- The part of `MainWindow` the shortcut code reads and writes: the member
`keyMap_` and the shortcut objects created with `this` as parent, in creation
order. -/
structure MainWindow (K cb : Type) where
  keyMap_ : QMap String Bool
  children : List (ShortcutObject K cb)
deriving DecidableEq, Repr

/-- A newly constructed window, before `init()` runs: `keyMap_` is empty and
no shortcut object exists. -/
def MainWindow.fresh {K cb : Type} : MainWindow K cb := ⟨QMap.empty, []⟩

section Registry

variable {K cb : Type}

/-- The overload `bool MainWindow::regShortcut(const QKeySequence& k, T func, U func2)`
(mainwindow.cpp:1107-1122). -/
def regShortcut_QKeySequence_T_U (qt : QKeySequenceApi K) (w : MainWindow K cb)
    (k : K) (func func2 : cb) : Bool × MainWindow K cb :=
  if w.keyMap_.contains (qt.toString k) then
    (false, w)
  else
    let keyMap := w.keyMap_.insert (qt.toString k) true
    let shortcut : ShortcutObject K cb :=
      { cls := .SingleShortcut, key := k, activated := [func], inactivated := [func2] }
    (true, { keyMap_ := keyMap, children := w.children ++ [shortcut] })

/-- The overload `bool MainWindow::regShortcut(const QKeySequence& k, T func)`
(mainwindow.cpp:1124-1135). -/
def regShortcut_QKeySequence_T (qt : QKeySequenceApi K) (w : MainWindow K cb)
    (k : K) (func : cb) : Bool × MainWindow K cb :=
  if w.keyMap_.contains (qt.toString k) then
    (false, w)
  else
    let keyMap := w.keyMap_.insert (qt.toString k) true
    let shortcut : ShortcutObject K cb :=
      { cls := .QShortcut, key := k, activated := [func], inactivated := [] }
    (true, { keyMap_ := keyMap, children := w.children ++ [shortcut] })

/-- The overload `bool MainWindow::regShortcut(const QString& name, T func, U func2)`
(mainwindow.cpp:1093-1099). -/
def regShortcut_QString_T_U (qt : QKeySequenceApi K) (shortcut_manager : ShortcutManager)
    (w : MainWindow K cb) (name : String) (func func2 : cb) : Bool × MainWindow K cb :=
  regShortcut_QKeySequence_T_U qt w
    (qt.fromString ((shortcut_manager.shortcut name).get "key").toString) func func2

/-- The overload `bool MainWindow::regShortcut(const QString& name, T func)`
(mainwindow.cpp:1101-1105). -/
def regShortcut_QString_T (qt : QKeySequenceApi K) (shortcut_manager : ShortcutManager)
    (w : MainWindow K cb) (name : String) (func : cb) : Bool × MainWindow K cb :=
  regShortcut_QKeySequence_T qt w
    (qt.fromString ((shortcut_manager.shortcut name).get "key").toString) func

/-- One call of `regShortcut`: the first argument is an action name or a key
sequence, the release callback is present for the two-callback overloads. -/
structure RegCall (K cb : Type) where
  target : String ⊕ K
  func : cb
  func2 : Option cb

/-- Overload resolution: the call is routed to one of the four overloads. -/
def regShortcut (qt : QKeySequenceApi K) (shortcut_manager : ShortcutManager)
    (w : MainWindow K cb) (c : RegCall K cb) : Bool × MainWindow K cb :=
  match c.target, c.func2 with
  | .inl name, none => regShortcut_QString_T qt shortcut_manager w name c.func
  | .inl name, some func2 => regShortcut_QString_T_U qt shortcut_manager w name c.func func2
  | .inr k, none => regShortcut_QKeySequence_T qt w k c.func
  | .inr k, some func2 => regShortcut_QKeySequence_T_U qt w k c.func func2

/-- The key sequence a call registers. -/
def RegCall.key (qt : QKeySequenceApi K) (shortcut_manager : ShortcutManager)
    (c : RegCall K cb) : K :=
  match c.target with
  | .inl name => qt.fromString ((shortcut_manager.shortcut name).get "key").toString
  | .inr k => k

/-- The listener object a successful call creates: a `QShortcut` with only
`activated` connected for the one-callback overloads, a `SingleShortcut` with
`activated` and `inactivated` connected for the two-callback overloads. -/
def RegCall.listener (qt : QKeySequenceApi K) (shortcut_manager : ShortcutManager)
    (c : RegCall K cb) : ShortcutObject K cb :=
  match c.func2 with
  | none =>
    { cls := .QShortcut, key := c.key qt shortcut_manager, activated := [c.func],
      inactivated := [] }
  | some func2 =>
    { cls := .SingleShortcut, key := c.key qt shortcut_manager, activated := [c.func],
      inactivated := [func2] }

/-- A finite sequence of `regShortcut` calls, executed in order; the window
after the last call. -/
def regShortcuts (qt : QKeySequenceApi K) (shortcut_manager : ShortcutManager)
    (w : MainWindow K cb) : List (RegCall K cb) → MainWindow K cb
  | [] => w
  | c :: cs => regShortcuts qt shortcut_manager (regShortcut qt shortcut_manager w c).2 cs

/-- The return values of a finite sequence of `regShortcut` calls, in order. -/
def regShortcutResults (qt : QKeySequenceApi K) (shortcut_manager : ShortcutManager)
    (w : MainWindow K cb) : List (RegCall K cb) → List Bool
  | [] => []
  | c :: cs =>
    (regShortcut qt shortcut_manager w c).1 ::
      regShortcutResults qt shortcut_manager (regShortcut qt shortcut_manager w c).2 cs

/-- The listeners of the window whose key has canonical string `s`. -/
def listenersFor (qt : QKeySequenceApi K) (w : MainWindow K cb) (s : String) :
    List (ShortcutObject K cb) :=
  w.children.filter (fun l => decide (qt.toString l.key = s))

/-- Modelled from the spec: delivery of a key-down of sequence `k` by the
listener classes `QShortcut` (Qt) and `SingleShortcut` (misc/singleshortcut.h,
not under src/).  Every listener whose key is `k` emits `activated`, and the
slots connected to it run in connection order ("a live key listener is created
that invokes onActivate on key-down").  The result is the list of slots
invoked. -/
def keyPressEvent [DecidableEq K] (w : MainWindow K cb) (k : K) : List cb :=
  (w.children.filter (fun l => decide (l.key = k))).flatMap (fun l => l.activated)

/-- Modelled from the spec: delivery of a key-up of sequence `k`.  Every
listener whose key is `k` emits `inactivated` and the connected slots run
("and onDeactivate (if present) on key-up"); a `QShortcut` has no such signal.
The window state is returned with the list of slots invoked. -/
def keyReleaseEvent [DecidableEq K] (w : MainWindow K cb) (k : K) :
    MainWindow K cb × List cb :=
  (w, (w.children.filter (fun l => decide (l.key = k))).flatMap (fun l => l.inactivated))

/-- The registry invariant: a key string has one listener when it is in
`keyMap_` and none otherwise. -/
def OneListenerPerKey (qt : QKeySequenceApi K) (w : MainWindow K cb) : Prop :=
  ∀ s : String, (listenersFor qt w s).length = if w.keyMap_.contains s then 1 else 0

/-- The canonical key strings of a sequence of `regShortcut` calls, in call
order. -/
def keyStrings (qt : QKeySequenceApi K) (shortcut_manager : ShortcutManager)
    (cs : List (RegCall K cb)) : List String :=
  cs.map (fun c => qt.toString (c.key qt shortcut_manager))

/-- The first-occurrence marks of a list of key strings, given the strings
seen before it: an entry is true when its string occurs neither in `seen` nor
earlier in the list. -/
def firstOccurrences : List String → List String → List Bool
  | _, [] => []
  | seen, k :: ks => decide (k ∉ seen) :: firstOccurrences (k :: seen) ks

end Registry

/-! ## Window initialisation: the listeners created by `init()` -/

/-- The two tool buttons that get a key listener of their own in `toolbarInit`. -/
inductive ToolButton where
  | colorPicker
  | moveTool
deriving DecidableEq, Repr

/-- The slots that `toolbarInit` and `shortcutInit` connect to key listeners. -/
inductive Slot where
  /-- The press lambda of a brush shortcut: stores `brushActionGroup_->checkedAction()`
  in `lastBrushAction`, then triggers the action whose object name is `action`. -/
  | brushPressed (action : String)
  /-- The lambda `restoreAction`: triggers `lastBrushAction` when it is not null. -/
  | restoreAction
  /-- The slot `&QToolButton::click` on the given button. -/
  | click (b : ToolButton)
  | widthDown
  | widthUp
  | hardnessDown
  | hardnessUp
  | thicknessDown
  | thicknessUp
  /-- The lambda calling `centralWidget->scaleBy(1.2)`. -/
  | zoomIn
  /-- The lambda calling `centralWidget->scaleBy(0.8)`. -/
  | zoomOut
  /-- The lambda calling `centralWidget->rotateBy(deg)`. -/
  | rotateBy (deg : Int)
  /-- The lambda calling `setRotation(0)` and `setScaleFactor(1)` on the central widget. -/
  | canvasReset
  | openConsole
deriving DecidableEq, Repr

/-- What `toolbarInit` reads of a brush returned by `BrushManager::allBrushes()`. -/
structure Brush (K : Type) where
  name : String
  shortcut : K

/-- A listener created directly with `new SingleShortcut(this)`, `setKey(key)`
and the button's `click` connected to both signals (mainwindow.cpp:312-319 and
343-350).  `keyMap_` is neither read nor written. -/
def addToolButtonShortcut {K : Type} (w : MainWindow K Slot) (key : K) (b : ToolButton) :
    MainWindow K Slot :=
  { w with children := w.children ++
      [{ cls := .SingleShortcut, key := key, activated := [.click b],
         inactivated := [.click b] }] }

/-- The listeners created by `MainWindow::toolbarInit` (mainwindow.cpp:225-453).
`pickerIsButton` and `moveToolIsButton` stand for the tests `l.count() > 1` and
`qobject_cast<QToolButton *>(l[1])` on the widgets associated with the two
actions. -/
def toolbarInit {K : Type} (qt : QKeySequenceApi K) (shortcut_manager : ShortcutManager)
    (brushes : List (Brush K)) (pickerIsButton moveToolIsButton : Bool)
    (w : MainWindow K Slot) : MainWindow K Slot :=
  let w := brushes.foldl
    (fun w item =>
      (regShortcut_QKeySequence_T_U qt w item.shortcut (.brushPressed item.name)
        .restoreAction).2) w
  let w :=
    if pickerIsButton then
      let colorpicker_key := ((shortcut_manager.shortcut "colorpicker").get "key").toString
      addToolButtonShortcut w (qt.fromString colorpicker_key) .colorPicker
    else w
  let w :=
    if moveToolIsButton then
      let movetool_key := ((shortcut_manager.shortcut "movetool").get "key").toString
      addToolButtonShortcut w (qt.fromString movetool_key) .moveTool
    else w
  let w := (regShortcut_QString_T qt shortcut_manager w "subwidth" .widthDown).2
  let w := (regShortcut_QString_T qt shortcut_manager w "addwidth" .widthUp).2
  let w := (regShortcut_QString_T qt shortcut_manager w "subhardness" .hardnessDown).2
  let w := (regShortcut_QString_T qt shortcut_manager w "addhardness" .hardnessUp).2
  let w := (regShortcut_QString_T qt shortcut_manager w "subthickness" .thicknessDown).2
  (regShortcut_QString_T qt shortcut_manager w "addthickness" .thicknessUp).2

/-- The listeners created by `MainWindow::shortcutInit` (mainwindow.cpp:503-551). -/
def shortcutInit {K : Type} (qt : QKeySequenceApi K) (shortcut_manager : ShortcutManager)
    (w : MainWindow K Slot) : MainWindow K Slot :=
  let w := (regShortcut_QString_T qt shortcut_manager w "zoomin" .zoomIn).2
  let w := (regShortcut_QString_T qt shortcut_manager w "zoomout" .zoomOut).2
  let w := (regShortcut_QString_T qt shortcut_manager w "rotateclock" (.rotateBy 10)).2
  let w := (regShortcut_QString_T qt shortcut_manager w "rotateanticlock" (.rotateBy (-10))).2
  let w := (regShortcut_QString_T qt shortcut_manager w "canvasreset" .canvasReset).2
  (regShortcut_QKeySequence_T qt w (qt.fromString "F12") .openConsole).2

/-- The function `MainWindow::init` as far as key listeners go: `toolbarInit()` followed by
`shortcutInit()` on the newly constructed window (mainwindow.cpp:159-161). -/
def init {K : Type} (qt : QKeySequenceApi K) (shortcut_manager : ShortcutManager)
    (brushes : List (Brush K)) (pickerIsButton moveToolIsButton : Bool) :
    MainWindow K Slot :=
  shortcutInit qt shortcut_manager
    (toolbarInit qt shortcut_manager brushes pickerIsButton moveToolIsButton MainWindow.fresh)

/-! ## Brush shortcuts: press selects a brush, release restores the previous one -/

/-- The brush-tool state the two lambdas of a brush shortcut read and write.
Brush actions are identified by their object name, which `toolbarInit` sets to
the brush name. -/
structure BrushTools where
  /-- The result of `brushActionGroup_->checkedAction()`; `none` is a null pointer. -/
  checkedAction : Option String
  /-- The member `lastBrushAction`; `none` is a null pointer. -/
  lastBrushAction : Option String
  /-- The argument of the last call `ui->canvas->changeBrush(brushName)`. -/
  canvasBrush : Option String
deriving DecidableEq, Repr

/-- The call `action->trigger()` on a brush action of the toolbar.  The action is
checkable and belongs to the exclusive group `brushActionGroup_`, so it becomes
the checked action of the group (Qt); its `triggered` signal is connected to
`onBrushTypeChange`, which calls `changeToBrush(sender()->objectName())` and
through it `ui->canvas->changeBrush` (mainwindow.cpp:246-250, 704-707, 796-798). -/
def QAction.trigger (action : String) (t : BrushTools) : BrushTools :=
  { t with checkedAction := some action, canvasBrush := some action }

/-- The effect of a slot of a brush shortcut on the brush-tool state
(mainwindow.cpp:233-237 and 279-282).  The other slots act on other widgets and
are not given an effect here. -/
def runBrushSlot : Slot → BrushTools → Option BrushTools
  | .brushPressed action, t =>
    some (QAction.trigger action { t with lastBrushAction := t.checkedAction })
  | .restoreAction, t =>
    match t.lastBrushAction with
    | some last => some (QAction.trigger last t)
    | none => some t
  | _, _ => none

/-- The slots connected to a signal run in connection order. -/
def runBrushSlots : List Slot → BrushTools → Option BrushTools
  | [], t => some t
  | slot :: slots, t => (runBrushSlot slot t).bind (runBrushSlots slots)

/-! ## Network indicator and chat input -/

/-- The values of `NetworkIndicator::LEVEL` that `onDelayGet` passes to
`setLevel`. -/
inductive NetworkIndicator.LEVEL where
  | UNKNOWN
  | NONE
  | LOW
  | MEDIUM
  | GOOD
deriving DecidableEq, Repr

/-- The slot `void MainWindow::onDelayGet(const int delay)` (mainwindow.cpp:627-650):
the `setLevel` calls it makes on `networkIndicator_`, in order. -/
def onDelayGet (delay : Int) : List NetworkIndicator.LEVEL :=
  if delay < 0 then [.UNKNOWN]
  else if delay > 60 then [.NONE]
  else if delay > 20 then [.LOW]
  else if delay > 10 then [.MEDIUM]
  else if delay < 10 then [.GOOD]
  else []

/-- The member `QString::count()`: the number of UTF-16 code units of the
string, two for a character outside the basic plane. -/
def QString.count (s : String) : Nat :=
  (s.toList.map (fun c => if c.toNat < 65536 then 1 else 2)).sum

/-- The member `QString::isEmpty()`: the string has no code units. -/
def QString.isEmpty (s : String) : Bool := decide (QString.count s = 0)

/-- What `onSendPressed` does: the arguments of the `sendMessage` signals it
emits, and whether `ui->lineEdit->commit()` is called. -/
structure SendOutcome where
  sendMessage : List String
  commit : Bool
deriving DecidableEq, Repr

/-- The slot `void MainWindow::onSendPressed()` (mainwindow.cpp:679-691), given
`client_socket.userName()` and `ui->lineEdit->text()`. -/
def onSendPressed (userName text : String) : SendOutcome :=
  let string := text
  if QString.isEmpty string || decide (QString.count string > 256) then
    { sendMessage := [], commit := false }
  else
    let string := (userName ++ ": ") ++ string
    let string := string ++ "\n"
    { sendMessage := [string], commit := true }

/-! ## Persistent settings, room key and shutdown -/

/-- The bytes of a `QByteArray`. -/
abbrev QByteArray := List Nat

/-- The conversions between `QVariant` and plain values that the window applies
to settings values (`toString()`, `toByteArray()`, `toBool()` and the
constructor from a `QByteArray`).  They belong to Qt, so the embedding is
parametric in the type `V` of a stored value and in these functions. -/
structure QVariantApi (V : Type) where
  toString : V → String
  toByteArray : V → QByteArray
  toBool : V → Bool
  fromByteArray : QByteArray → V

/-- The result of `toString()` on the value returned by `QSettings::value(key)`;
`none` is the invalid variant returned for a missing key. -/
def QVariantApi.stringOf {V : Type} (api : QVariantApi V) : Option V → String
  | none => ""
  | some v => api.toString v

/-- The result of `toByteArray()` on the value returned by `QSettings::value(key)`. -/
def QVariantApi.byteArrayOf {V : Type} (api : QVariantApi V) : Option V → QByteArray
  | none => []
  | some v => api.toByteArray v

/-- The result of `toBool()` on the value returned by
`QSettings::value(key, defaultValue)` for a boolean `defaultValue`. -/
def QVariantApi.boolOr {V : Type} (api : QVariantApi V) (defaultValue : Bool) :
    Option V → Bool
  | none => defaultValue
  | some v => api.toBool v

/-- The member `QMap::value(key)` as an option: the value stored under `key`,
if there is one. -/
def QMap.value? {α β : Type} [DecidableEq α] (m : QMap α β) (key : α) : Option β :=
  (m.entries.find? (fun p => decide (p.1 = key))).map Prod.snd

/-- The store opened by `QSettings settings(GlobalDef::SETTINGS_NAME,
QSettings::defaultFormat(), qApp)`: its entries by key.  It outlives the
window; the next start of the application opens the same store. -/
structure QSettings (V : Type) where
  entries : QMap String V

/-- The member `QSettings::contains(key)`. -/
def QSettings.contains {V : Type} (settings : QSettings V) (key : String) : Bool :=
  settings.entries.contains key

/-- The member `QSettings::value(key)`; `none` is the invalid variant. -/
def QSettings.value {V : Type} (settings : QSettings V) (key : String) : Option V :=
  settings.entries.value? key

/-- The member `QSettings::setValue(key, value)`. -/
def QSettings.setValue {V : Type} (settings : QSettings V) (key : String) (value : V) :
    QSettings V :=
  ⟨settings.entries.insert key value⟩

/-- The function `QString MainWindow::getRoomKey()` (mainwindow.cpp:461-479), given
the settings store, `client_socket.roomName()` and the function `md5Hex`
computing the hexadecimal MD5 digest of the UTF-8 bytes of a string
(`QCryptographicHash`). -/
def getRoomKey {V : Type} (api : QVariantApi V) (md5Hex : String → String)
    (settings : QSettings V) (roomName : String) : String :=
  let hashed_name := md5Hex roomName
  if !settings.contains ("rooms/" ++ hashed_name) then
    ""
  else
    let key := settings.value ("rooms/" ++ hashed_name)
    api.stringOf key

/-- The answer of the `QMessageBox::question` dialog opened with the buttons
`Yes|No`. -/
inductive StandardButton where
  | Yes
  | No
deriving DecidableEq, Repr

/-- What `clearAllLayer` does towards the user and the server. -/
inductive ClearAllEffect where
  /-- The confirmation dialog `QMessageBox::question`. -/
  | question
  /-- The dialog `QMessageBox::warning` telling that only the room owner may clear. -/
  | warning
  /-- The call `client_socket.sendCmdPack(map)` with the fields of the `QJsonObject`. -/
  | sendCmdPack (map : QMap String String)
deriving DecidableEq, Repr

/-- The slot `void MainWindow::clearAllLayer()` (mainwindow.cpp:898-923), given the
answer `result` of the confirmation dialog: its effects in order.  `getRoomKey`
is called twice, as in the source, on the same store. -/
def clearAllLayer {V : Type} (api : QVariantApi V) (md5Hex : String → String)
    (settings : QSettings V) (roomName : String) (result : StandardButton) :
    List ClearAllEffect :=
  if result = .Yes then
    let map : QMap String String := QMap.empty
    let r_key := getRoomKey api md5Hex settings roomName
    if QString.isEmpty r_key then
      [.question, .warning]
    else
      let map := map.insert "request" "clearall"
      let map := map.insert "type" "command"
      let map := map.insert "key" (getRoomKey api md5Hex settings roomName)
      [.question, .sendCmdPack map]
  else
    [.question]

/-- The calls `closeEvent` makes besides writing settings. -/
inductive CloseEffect where
  /-- The call `disconnect(&client_socket, &ClientSocket::disconnected, ...)`. -/
  | disconnectServerDisconnected
  /-- The call `ui->canvas->pause()`. -/
  | canvasPause
  /-- The call `client_socket.exitFromRoom()`. -/
  | exitFromRoom
  /-- The progress dialog is shown. -/
  | dialogShow
  /-- The call `QApplication::processEvents`. -/
  | processEvents
  /-- The call `ui->canvas->saveLayers()`. -/
  | saveLayers
  /-- The call `settings.sync()`. -/
  | sync
  /-- The progress dialog is closed. -/
  | dialogClose
  /-- The call `event->accept()`. -/
  | accept
deriving DecidableEq, Repr

/-- The handler `void MainWindow::closeEvent(QCloseEvent*)` (mainwindow.cpp:956-990),
given the store, the blob `ui->colorGrid->dataExport()` and the blob
`saveState()`: the store afterwards and the calls made, in order. -/
def closeEvent {V : Type} (api : QVariantApi V) (settings : QSettings V)
    (dataExport saveState : QByteArray) : QSettings V × List CloseEffect :=
  let settings := settings.setValue "colorgrid/pal" (api.fromByteArray dataExport)
  let settings := settings.setValue "mainwindow/view" (api.fromByteArray saveState)
  let skip_replay := api.boolOr true (settings.value "canvas/skip_replay")
  (settings,
    [.disconnectServerDisconnected, .canvasPause, .exitFromRoom, .dialogShow, .processEvents]
      ++ (if skip_replay then [.saveLayers] else [])
      ++ [.sync, .dialogClose, .accept])

/-- The function `void MainWindow::colorGridInit()` (mainwindow.cpp:197-209): the
blob passed to `ui->colorGrid->dataImport`, or `none` when it returns before
that call. -/
def colorGridInit {V : Type} (api : QVariantApi V) (settings : QSettings V) :
    Option QByteArray :=
  let data := api.byteArrayOf (settings.value "colorgrid/pal")
  if data.isEmpty then none else some data

/-- The function `void MainWindow::viewInit()` (mainwindow.cpp:211-223): the blob
passed to `restoreState`, or `none` when it returns before that call. -/
def viewInit {V : Type} (api : QVariantApi V) (settings : QSettings V) :
    Option QByteArray :=
  let data := api.byteArrayOf (settings.value "mainwindow/view")
  if data.isEmpty then none else some data

/-! ## Tool buttons: move tool and colour picker -/

/-- The group `brushActionGroup_` as far as the tool slots touch it: the flag
set by `setDisabled`. -/
structure QActionGroup where
  disabled : Bool
deriving DecidableEq, Repr

/-- A tool button as far as the tool slots touch it: the flags set by
`setDisabled` and `setChecked`. -/
structure QToolButton where
  disabled : Bool
  checked : Bool
deriving DecidableEq, Repr

/-- The calls the tool slots make on `ui->canvas`. -/
inductive CanvasToolCall where
  | onMoveTool (c : Bool)
  | onColorPicker (c : Bool)
deriving DecidableEq, Repr

/-- The members the tool slots read and write; `none` is a null pointer.
`canvasCalls` lists the calls made on `ui->canvas`, in order. -/
structure ToolWidgets where
  brushActionGroup_ : Option QActionGroup
  colorPickerButton_ : Option QToolButton
  moveToolButton_ : Option QToolButton
  canvasCalls : List CanvasToolCall
deriving DecidableEq, Repr

/-- The slot `void MainWindow::onMoveToolPressed(bool c)` (mainwindow.cpp:749-758). -/
def onMoveToolPressed (c : Bool) (w : ToolWidgets) : ToolWidgets :=
  let w := { w with canvasCalls := w.canvasCalls ++ [CanvasToolCall.onMoveTool c] }
  let w :=
    match w.brushActionGroup_ with
    | some group => { w with brushActionGroup_ := some { group with disabled := c } }
    | none => w
  match w.colorPickerButton_ with
  | some button => { w with colorPickerButton_ := some { button with disabled := c } }
  | none => w

/-- The slot `void MainWindow::onColorPickerPressed(bool c)` (mainwindow.cpp:760-769). -/
def onColorPickerPressed (c : Bool) (w : ToolWidgets) : ToolWidgets :=
  let w := { w with canvasCalls := w.canvasCalls ++ [CanvasToolCall.onColorPicker c] }
  let w :=
    match w.brushActionGroup_ with
    | some group => { w with brushActionGroup_ := some { group with disabled := c } }
    | none => w
  match w.moveToolButton_ with
  | some button => { w with moveToolButton_ := some { button with disabled := c } }
  | none => w

/-- The slot `void MainWindow::onCanvasToolComplete()` (mainwindow.cpp:771-782). -/
def onCanvasToolComplete (w : ToolWidgets) : ToolWidgets :=
  let w :=
    match w.brushActionGroup_ with
    | some group => { w with brushActionGroup_ := some { group with disabled := false } }
    | none => w
  let w :=
    match w.colorPickerButton_ with
    | some button => { w with colorPickerButton_ := some { button with checked := false } }
    | none => w
  match w.moveToolButton_ with
  | some button => { w with moveToolButton_ := some { button with checked := false } }
  | none => w

/-! ## Export file names -/

/-- The two `QChar` functions behind `QString::trimmed()` and the
case-insensitive `QString::endsWith`: `isSpace()` and `toCaseFolded()`. -/
structure QCharApi where
  isSpace : Char → Bool
  toCaseFolded : Char → Char

/-- The characters of a string with the whitespace at both ends removed. -/
def trimChars (isSpace : Char → Bool) (l : List Char) : List Char :=
  ((l.dropWhile isSpace).reverse.dropWhile isSpace).reverse

/-- The member `QString::trimmed()`. -/
def QString.trimmed (qchar : QCharApi) (s : String) : String :=
  String.mk (trimChars qchar.isSpace s.data)

/-- The member `QString::endsWith(ext, Qt::CaseInsensitive)`: the case-folded
characters of `ext` are the last characters of the case-folded string. -/
def QString.endsWithCaseInsensitive (qchar : QCharApi) (s ext : String) : Bool :=
  (ext.data.map qchar.toCaseFolded).isSuffixOf (s.data.map qchar.toCaseFolded)

/-- The function `void MainWindow::exportAllToFile()` (mainwindow.cpp:992-1008),
given the name returned by `QFileDialog::getSaveFileName`: the path passed to
`image.save(fileName, "PNG")`, or `none` when it returns without saving. -/
def exportAllToFile (qchar : QCharApi) (chosen : String) : Option String :=
  let fileName := chosen
  let fileName := QString.trimmed qchar fileName
  if QString.isEmpty fileName then
    none
  else
    let fileName :=
      if !QString.endsWithCaseInsensitive qchar fileName ".png" then fileName ++ ".png"
      else fileName
    some fileName

/-- The function `void MainWindow::exportVisibleToFile()` (mainwindow.cpp:1010-1026),
given the name returned by `QFileDialog::getSaveFileName`: the path passed to
`image.save(fileName, "PNG")`, or `none` when it returns without saving. -/
def exportVisibleToFile (qchar : QCharApi) (chosen : String) : Option String :=
  let fileName := chosen
  let fileName := QString.trimmed qchar fileName
  if QString.isEmpty fileName then
    none
  else
    let fileName :=
      if !QString.endsWithCaseInsensitive qchar fileName ".png" then fileName ++ ".png"
      else fileName
    some fileName

/-- The function `void MainWindow::exportToPSD()` (mainwindow.cpp:1028-1066), given
the name returned by `QFileDialog::getSaveFileName`: the path of the `QFile`
the finished export is written to, or `none` when it returns before starting
the export. -/
def exportToPSD (qchar : QCharApi) (chosen : String) : Option String :=
  let fileName := chosen
  let fileName := QString.trimmed qchar fileName
  if QString.isEmpty fileName then
    none
  else
    let fileName :=
      if !QString.endsWithCaseInsensitive qchar fileName ".psd" then fileName ++ ".psd"
      else fileName
    some fileName

/-- The normalisation of an export file name in the words of the
specification: nothing when the trimmed name is empty, the trimmed name when
it ends with the extension compared case-insensitively, and the trimmed name
followed by the extension otherwise. -/
def normalisedExportName (qchar : QCharApi) (ext f : String) : Option String :=
  if QString.trimmed qchar f = "" then none
  else if QString.endsWithCaseInsensitive qchar (QString.trimmed qchar f) ext = true then
    some (QString.trimmed qchar f)
  else some (QString.trimmed qchar f ++ ext)

/-! ## Brush settings controls -/

/-- The six integer settings shown by the brush-settings control. -/
inductive BrushField where
  | width
  | hardness
  | thickness
  | water
  | extend
  | mixin
deriving DecidableEq, Repr

/-- The key under which `onBrushSettingsChanged` reads a setting from the map. -/
def BrushField.key : BrushField → String
  | .width => "width"
  | .hardness => "hardness"
  | .thickness => "thickness"
  | .water => "water"
  | .extend => "extend"
  | .mixin => "mixin"

/-- The functions `onBrushSettingsChanged` calls on classes that are not part of
mainwindow.cpp, for a type `V` of `QVariant` values, `W` of states of the
`BrushSettingsWidget`, `B` of states of the `ColorBox` and `C` of colours:
`QVariant::toInt()` and `toMap()`, the constructor `QColor(int, int, int)`, the
getters `width()` ... `mixin()` and setters `setWidth(int)` ... `setMixin(int)`
of the control, and `color()` and `setColor` of the colour box. -/
structure BrushControlsApi (V W B C : Type) where
  toInt : V → Int
  toMap : V → List (String × V)
  rgb : Int → Int → Int → C
  get : BrushField → W → Int
  set : BrushField → Int → W → W
  color : B → C
  setColor : C → B → B

/-- The accessors behave as plain accessors: a setter makes its own getter
return the value set and changes no other getter, and `setColor` makes `color`
return the colour set. -/
structure BrushControlsApi.Lawful {V W B C : Type} (api : BrushControlsApi V W B C) :
    Prop where
  get_set : ∀ (f : BrushField) (v : Int) (w : W), api.get f (api.set f v w) = v
  get_set_other : ∀ (f g : BrushField) (v : Int) (w : W), g ≠ f →
    api.get g (api.set f v w) = api.get g w
  color_setColor : ∀ (c : C) (b : B), api.color (api.setColor c b) = c

/-- The expression `m[key].toInt()` on a constant `QVariantMap`: 0 for a missing
key, as `toInt()` of an invalid variant. -/
def intField {V W B C : Type} (api : BrushControlsApi V W B C) (m : List (String × V))
    (key : String) : Int :=
  match m.find? (fun p => decide (p.1 = key)) with
  | some p => api.toInt p.2
  | none => 0

/-- The expression `m[key].toMap()` on a constant `QVariantMap`: the empty map
for a missing key. -/
def mapField {V W B C : Type} (api : BrushControlsApi V W B C) (m : List (String × V))
    (key : String) : List (String × V) :=
  match m.find? (fun p => decide (p.1 = key)) with
  | some p => api.toMap p.2
  | none => []

/-- The colour `QColor c(colorMap["red"].toInt(), colorMap["green"].toInt(),
colorMap["blue"].toInt())` built from the field "color" of the map. -/
def brushColor {V W B C : Type} (api : BrushControlsApi V W B C) (m : List (String × V)) :
    C :=
  let colorMap := mapField api m "color"
  api.rgb (intField api colorMap "red") (intField api colorMap "green")
    (intField api colorMap "blue")

/-- A call of a setter made by `onBrushSettingsChanged`. -/
inductive SetterCall (C : Type) where
  | set (field : BrushField) (value : Int)
  | setColor (c : C)
deriving DecidableEq, Repr

/-- The members `onBrushSettingsChanged` reads and writes: the control
`brushSettingControl_` (`none` is a null pointer) and `ui->colorBox`. -/
structure BrushControls (W B : Type) where
  brushSettingControl_ : Option W
  colorBox : B

/-- One statement `if(brushSettingControl_->x() != x) brushSettingControl_->setX(x);`
on the control and the log of setter calls. -/
def syncField {V W B C : Type} (api : BrushControlsApi V W B C) (field : BrushField)
    (value : Int) (s : W × List (SetterCall C)) : W × List (SetterCall C) :=
  if api.get field s.1 ≠ value then (api.set field value s.1, s.2 ++ [.set field value])
  else s

/-- The slot `void MainWindow::onBrushSettingsChanged(const QVariantMap &m)`
(mainwindow.cpp:709-741): the members afterwards and the setters called, in
order. -/
def onBrushSettingsChanged {V W B C : Type} [DecidableEq C] (api : BrushControlsApi V W B C)
    (m : List (String × V)) (ui : BrushControls W B) :
    BrushControls W B × List (SetterCall C) :=
  let width := intField api m "width"
  let hardness := intField api m "hardness"
  let thickness := intField api m "thickness"
  let water := intField api m "water"
  let extend := intField api m "extend"
  let mixin := intField api m "mixin"
  let c : C := brushColor api m
  let controlAndCalls : Option W × List (SetterCall C) :=
    match ui.brushSettingControl_ with
    | some control =>
      let s := syncField api .width width (control, [])
      let s := syncField api .hardness hardness s
      let s := syncField api .thickness thickness s
      let s := syncField api .water water s
      let s := syncField api .extend extend s
      let s := syncField api .mixin mixin s
      (some s.1, s.2)
    | none => (none, [])
  if api.color ui.colorBox ≠ c then
    ({ brushSettingControl_ := controlAndCalls.1, colorBox := api.setColor c ui.colorBox },
      controlAndCalls.2 ++ [.setColor c])
  else
    ({ brushSettingControl_ := controlAndCalls.1, colorBox := ui.colorBox },
      controlAndCalls.2)

/-! ## A concrete key-sequence type for evaluating the definitions -/

/-- Key sequences given directly by their portable text. -/
def textKeys : QKeySequenceApi String := ⟨fun s => s, fun k => k⟩

/-- The configuration used to evaluate the by-name overloads: "undo" and
"revert" are both configured to "Ctrl+Z", every other action has no record. -/
def exampleConfig : ShortcutManager :=
  ⟨fun name =>
    if name = "undo" ∨ name = "revert" then [("type", .int 0), ("key", .string "Ctrl+Z")]
    else []⟩

/-- A configuration in which the user has set the colour picker to "F12", the
key `shortcutInit` binds to the developer console; all other actions have keys
of their own. -/
def pickerOnF12Config : ShortcutManager :=
  ⟨fun name =>
    match [("colorpicker", "F12"), ("movetool", "M"), ("subwidth", "Q"), ("addwidth", "W"),
        ("subhardness", "Ctrl+Q"), ("addhardness", "Ctrl+W"), ("subthickness", "Alt+Q"),
        ("addthickness", "Alt+W"), ("zoomin", "Ctrl+="), ("zoomout", "Ctrl+-"),
        ("rotateclock", "Ctrl+R"), ("rotateanticlock", "Ctrl+Shift+R"),
        ("canvasreset", "Ctrl+0")].lookup name with
    | some key => [("key", .string key)]
    | none => []⟩

/-- Two brushes with distinct shortcuts. -/
def exampleBrushes : List (Brush String) := [⟨"BasicBrush", "A"⟩, ⟨"Eraser", "E"⟩]

/-- A concrete type of stored values for evaluating the definitions: a text
or a byte array. -/
inductive StoredValue where
  | string (s : String)
  | byteArray (b : QByteArray)
deriving DecidableEq, Repr

/-- Conversions on `StoredValue`: a text converts to itself, to its characters
as bytes and to `false` exactly for "", "0" and "false"; a byte array converts
to itself and, read as text, follows the same rules. -/
def storedValueApi : QVariantApi StoredValue where
  toString := fun v =>
    match v with
    | .string s => s
    | .byteArray b => String.mk (b.map Char.ofNat)
  toByteArray := fun v =>
    match v with
    | .string s => s.toList.map Char.toNat
    | .byteArray b => b
  toBool := fun v =>
    match v with
    | .string s => !(decide (s = "") || decide (s = "0") || decide (s = "false"))
    | .byteArray b =>
      !(decide (b = []) || decide (b = [48]) || decide (b = [102, 97, 108, 115, 101]))
  fromByteArray := .byteArray

/-- The MD5 digest, in hexadecimal, of the room name "lobby" used in the
examples. -/
def exampleMd5Hex : String → String :=
  fun roomName => if roomName = "lobby" then "d8671d1cb097a3bd26b2344ee25a0562" else ""

/-- A settings store whose entry for the room "lobby" holds the empty text. -/
def emptyRoomKeyStore : QSettings StoredValue :=
  ⟨⟨[("rooms/d8671d1cb097a3bd26b2344ee25a0562", .string "")]⟩⟩

/-- A settings store whose entry for the room "lobby" holds the key "s3cret",
with replay skipping switched off. -/
def ownerStore : QSettings StoredValue :=
  ⟨⟨[("rooms/d8671d1cb097a3bd26b2344ee25a0562", .string "s3cret"),
      ("canvas/skip_replay", .string "false")]⟩⟩

/-- A concrete pair of character functions for evaluating the definitions:
the ASCII whitespace characters are spaces, and case folding is lower-casing
of the ASCII letters. -/
def asciiChars : QCharApi where
  isSpace := fun c => decide (c.toNat = 32) || (decide (9 ≤ c.toNat) && decide (c.toNat ≤ 13))
  toCaseFolded := fun c =>
    if 65 ≤ c.toNat ∧ c.toNat ≤ 90 then Char.ofNat (c.toNat + 32) else c

/-- A brush-settings control that simply stores its six values. -/
structure PlainBrushSettings where
  width : Int
  hardness : Int
  thickness : Int
  water : Int
  extend : Int
  mixin : Int
deriving DecidableEq, Repr

/-- Concrete classes for evaluating `onBrushSettingsChanged`: a variant is an
integer or a map of integers, a colour is its three components, and the
control and the colour box store what their setters receive. -/
def plainBrushControls :
    BrushControlsApi (Int ⊕ List (String × Int)) PlainBrushSettings (Int × Int × Int)
      (Int × Int × Int) where
  toInt := fun v =>
    match v with
    | .inl i => i
    | .inr _ => 0
  toMap := fun v =>
    match v with
    | .inl _ => []
    | .inr m => m.map (fun p => (p.1, .inl p.2))
  rgb := fun r g b => (r, g, b)
  get := fun f w =>
    match f with
    | .width => w.width
    | .hardness => w.hardness
    | .thickness => w.thickness
    | .water => w.water
    | .extend => w.extend
    | .mixin => w.mixin
  set := fun f v w =>
    match f with
    | .width => { w with width := v }
    | .hardness => { w with hardness := v }
    | .thickness => { w with thickness := v }
    | .water => { w with water := v }
    | .extend => { w with extend := v }
    | .mixin => { w with mixin := v }
  color := fun b => b
  setColor := fun c _ => c

/-! ## Lemmas on `QMap` -/

theorem QMap.contains_empty {α β : Type} [DecidableEq α] (key : α) :
    (QMap.empty : QMap α β).contains key = false := by
  simp [QMap.contains, QMap.empty]

theorem QMap.contains_insert {α β : Type} [DecidableEq α] (m : QMap α β) (key key2 : α)
    (value : β) :
    (m.insert key value).contains key2 = (decide (key = key2) || m.contains key2) := by
  by_cases h : key = key2
  · simp [QMap.contains, QMap.insert, h]
  · simp only [QMap.contains, QMap.insert, List.any_cons, h, decide_False, Bool.false_or]
    rw [Bool.eq_iff_iff]
    simp only [List.any_eq_true, List.mem_filter, decide_eq_true_eq]
    constructor
    · rintro ⟨p, ⟨hp, _⟩, hk⟩
      exact ⟨p, hp, hk⟩
    · rintro ⟨p, hp, hk⟩
      refine ⟨p, ⟨hp, ?_⟩, hk⟩
      simpa [hk] using fun h2 : key2 = key => h h2.symm

theorem QMap.contains_insert_self {α β : Type} [DecidableEq α] (m : QMap α β) (key : α)
    (value : β) : (m.insert key value).contains key = true := by
  simp [QMap.contains_insert]


/-! ## Lemmas on `regShortcut` -/

section RegistryLemmas

variable {K cb : Type}

/-- All four overloads follow one pattern: reject a key whose string is in
`keyMap_`, otherwise mark it and append the listener of the call. -/
theorem regShortcut_eq (qt : QKeySequenceApi K) (sm : ShortcutManager) (w : MainWindow K cb)
    (c : RegCall K cb) :
    regShortcut qt sm w c =
      if w.keyMap_.contains (qt.toString (c.key qt sm)) then (false, w)
      else (true, { keyMap_ := w.keyMap_.insert (qt.toString (c.key qt sm)) true,
                    children := w.children ++ [c.listener qt sm] }) := by
  obtain ⟨target, func, func2⟩ := c
  cases target <;> cases func2 <;>
    simp only [regShortcut, regShortcut_QString_T, regShortcut_QString_T_U,
      regShortcut_QKeySequence_T, regShortcut_QKeySequence_T_U, RegCall.key, RegCall.listener]

theorem regShortcut_fst (qt : QKeySequenceApi K) (sm : ShortcutManager) (w : MainWindow K cb)
    (c : RegCall K cb) :
    (regShortcut qt sm w c).1 = !w.keyMap_.contains (qt.toString (c.key qt sm)) := by
  rw [regShortcut_eq]
  cases h : w.keyMap_.contains (qt.toString (c.key qt sm)) <;> simp

theorem regShortcut_snd_of_contains (qt : QKeySequenceApi K) (sm : ShortcutManager)
    (w : MainWindow K cb) (c : RegCall K cb)
    (h : w.keyMap_.contains (qt.toString (c.key qt sm)) = true) :
    (regShortcut qt sm w c).2 = w := by
  rw [regShortcut_eq, h]
  simp

theorem regShortcut_snd_of_not_contains (qt : QKeySequenceApi K) (sm : ShortcutManager)
    (w : MainWindow K cb) (c : RegCall K cb)
    (h : w.keyMap_.contains (qt.toString (c.key qt sm)) = false) :
    (regShortcut qt sm w c).2 =
      { keyMap_ := w.keyMap_.insert (qt.toString (c.key qt sm)) true,
        children := w.children ++ [c.listener qt sm] } := by
  rw [regShortcut_eq, h]
  simp

theorem RegCall.listener_key (qt : QKeySequenceApi K) (sm : ShortcutManager)
    (c : RegCall K cb) : (c.listener qt sm).key = c.key qt sm := by
  unfold RegCall.listener
  cases c.func2 <;> rfl

/-- Membership in `keyMap_` after a call: the key of the call is added, nothing
is removed. -/
theorem contains_regShortcut (qt : QKeySequenceApi K) (sm : ShortcutManager)
    (w : MainWindow K cb) (c : RegCall K cb) (s : String) :
    (regShortcut qt sm w c).2.keyMap_.contains s =
      (decide (qt.toString (c.key qt sm) = s) || w.keyMap_.contains s) := by
  cases h : w.keyMap_.contains (qt.toString (c.key qt sm))
  · rw [regShortcut_snd_of_not_contains qt sm w c h]
    simp [QMap.contains_insert]
  · rw [regShortcut_snd_of_contains qt sm w c h]
    by_cases hs : qt.toString (c.key qt sm) = s
    · subst hs
      simp [h]
    · simp [hs]

/-- The listeners of a key string after a call. -/
theorem listenersFor_regShortcut (qt : QKeySequenceApi K) (sm : ShortcutManager)
    (w : MainWindow K cb) (c : RegCall K cb) (s : String) :
    listenersFor qt (regShortcut qt sm w c).2 s =
      if w.keyMap_.contains (qt.toString (c.key qt sm)) = false ∧ qt.toString (c.key qt sm) = s
      then listenersFor qt w s ++ [c.listener qt sm]
      else listenersFor qt w s := by
  cases h : w.keyMap_.contains (qt.toString (c.key qt sm))
  · rw [regShortcut_snd_of_not_contains qt sm w c h]
    by_cases hs : qt.toString (c.key qt sm) = s
    · simp [listenersFor, List.filter_append, RegCall.listener_key, hs]
    · simp [listenersFor, List.filter_append, RegCall.listener_key, hs]
  · rw [regShortcut_snd_of_contains qt sm w c h]
    simp

theorem oneListenerPerKey_fresh (qt : QKeySequenceApi K) :
    OneListenerPerKey qt (MainWindow.fresh : MainWindow K cb) := by
  intro s
  simp [listenersFor, MainWindow.fresh, QMap.contains_empty]

theorem oneListenerPerKey_regShortcut (qt : QKeySequenceApi K) (sm : ShortcutManager)
    (w : MainWindow K cb) (c : RegCall K cb) (hw : OneListenerPerKey qt w) :
    OneListenerPerKey qt (regShortcut qt sm w c).2 := by
  intro s
  rw [listenersFor_regShortcut, contains_regShortcut]
  have hs := hw s
  by_cases hk : qt.toString (c.key qt sm) = s
  · subst hk
    cases h : w.keyMap_.contains (qt.toString (c.key qt sm))
    · rw [h] at hs
      simp [hs]
    · rw [h] at hs
      simp [hs]
  · simp [hk, hs]

theorem oneListenerPerKey_regShortcuts (qt : QKeySequenceApi K) (sm : ShortcutManager)
    (cs : List (RegCall K cb)) (w : MainWindow K cb) (hw : OneListenerPerKey qt w) :
    OneListenerPerKey qt (regShortcuts qt sm w cs) := by
  induction cs generalizing w with
  | nil => exact hw
  | cons c cs ih => exact ih _ (oneListenerPerKey_regShortcut qt sm w c hw)

/-- Once a key string is in `keyMap_`, later calls keep it there and leave its
listeners as they are. -/
theorem regShortcuts_of_contains (qt : QKeySequenceApi K) (sm : ShortcutManager)
    (cs : List (RegCall K cb)) (w : MainWindow K cb) (s : String)
    (h : w.keyMap_.contains s = true) :
    (regShortcuts qt sm w cs).keyMap_.contains s = true ∧
    listenersFor qt (regShortcuts qt sm w cs) s = listenersFor qt w s := by
  induction cs generalizing w with
  | nil => exact ⟨h, rfl⟩
  | cons c cs ih =>
    have h1 : (regShortcut qt sm w c).2.keyMap_.contains s = true := by
      rw [contains_regShortcut, h]
      simp
    have h2 : listenersFor qt (regShortcut qt sm w c).2 s = listenersFor qt w s := by
      rw [listenersFor_regShortcut]
      have hne : ¬ (w.keyMap_.contains (qt.toString (c.key qt sm)) = false ∧
          qt.toString (c.key qt sm) = s) := by
        rintro ⟨hc, hs⟩
        rw [hs, h] at hc
        exact Bool.noConfusion hc
      rw [if_neg hne]
    obtain ⟨ih1, ih2⟩ := ih (regShortcut qt sm w c).2 h1
    exact ⟨ih1, ih2.trans h2⟩

/-- The listeners whose key is `k` are among the listeners of the canonical
string of `k`. -/
theorem filter_key_eq_filter_listenersFor [DecidableEq K] (qt : QKeySequenceApi K)
    (w : MainWindow K cb) (k : K) :
    w.children.filter (fun l => decide (l.key = k)) =
      (listenersFor qt w (qt.toString k)).filter (fun l => decide (l.key = k)) := by
  unfold listenersFor
  rw [List.filter_filter]
  apply List.filter_congr
  intro l _
  by_cases hl : l.key = k
  · simp [hl]
  · simp [hl]

/-- In a window satisfying the registry invariant, a key whose string is not in
`keyMap_` has no listener. -/
theorem no_listener_of_not_contains [DecidableEq K] (qt : QKeySequenceApi K)
    (w : MainWindow K cb) (hw : OneListenerPerKey qt w) (k : K)
    (h : w.keyMap_.contains (qt.toString k) = false) :
    w.children.filter (fun l => decide (l.key = k)) = [] := by
  have h0 := hw (qt.toString k)
  rw [h] at h0
  have hnil : listenersFor qt w (qt.toString k) = [] :=
    List.eq_nil_of_length_eq_zero (by simpa using h0)
  rw [filter_key_eq_filter_listenersFor qt w k, hnil]
  rfl

/-- A successful key-sequence registration leaves the string of its key in
`keyMap_`. -/
theorem regShortcut_true_iff_unregistered_aux (qt : QKeySequenceApi K) (w : MainWindow K cb)
    (k : K) (func func2 : cb) :
    ((regShortcut_QKeySequence_T qt w k func).1 = true ↔
      w.keyMap_.contains (qt.toString k) = false) ∧
    ((regShortcut_QKeySequence_T_U qt w k func func2).1 = true ↔
      w.keyMap_.contains (qt.toString k) = false) ∧
    ((regShortcut_QKeySequence_T qt w k func).1 = true →
      (regShortcut_QKeySequence_T qt w k func).2.keyMap_.contains (qt.toString k) = true) ∧
    ((regShortcut_QKeySequence_T_U qt w k func func2).1 = true →
      (regShortcut_QKeySequence_T_U qt w k func func2).2.keyMap_.contains (qt.toString k)
        = true) := by
  cases h : w.keyMap_.contains (qt.toString k) <;>
    simp [regShortcut_QKeySequence_T, regShortcut_QKeySequence_T_U, h,
      QMap.contains_insert_self]

end RegistryLemmas

/-! ## Counting successful registrations -/

section Counting

variable {K cb : Type}

/-- The return values of a call sequence are the first-occurrence marks of its
key strings, relative to the strings already in `keyMap_`. -/
theorem regShortcutResults_eq_firstOccurrences (qt : QKeySequenceApi K) (sm : ShortcutManager)
    (cs : List (RegCall K cb)) (w : MainWindow K cb) (seen : List String)
    (hseen : ∀ s, w.keyMap_.contains s = decide (s ∈ seen)) :
    regShortcutResults qt sm w cs = firstOccurrences seen (keyStrings qt sm cs) := by
  induction cs generalizing w seen with
  | nil => rfl
  | cons c cs ih =>
    simp only [regShortcutResults, keyStrings, List.map_cons, firstOccurrences]
    congr 1
    · rw [regShortcut_fst, hseen]
      simp
    · apply ih
      intro s
      rw [contains_regShortcut, hseen]
      by_cases h1 : qt.toString (c.key qt sm) = s
      · simp [h1]
      · have h2 : ¬ s = qt.toString (c.key qt sm) := fun h => h1 h.symm
        simp [h1, h2]

theorem length_firstOccurrences (seen ks : List String) :
    (firstOccurrences seen ks).length = ks.length := by
  induction ks generalizing seen with
  | nil => rfl
  | cons k ks ih => simp [firstOccurrences, ih]

/-- The number of marks set is the number of distinct strings not seen before. -/
theorem count_firstOccurrences (seen ks : List String) :
    (firstOccurrences seen ks).count true = (ks.toFinset \ seen.toFinset).card := by
  induction ks generalizing seen with
  | nil => simp [firstOccurrences]
  | cons k ks ih =>
    simp only [firstOccurrences, List.count_cons, ih, List.toFinset_cons]
    by_cases hk : k ∈ seen
    · have h1 : insert k seen.toFinset = seen.toFinset :=
        Finset.insert_eq_of_mem (List.mem_toFinset.mpr hk)
      have h2 : insert k ks.toFinset \ seen.toFinset = ks.toFinset \ seen.toFinset := by
        ext x
        simp only [Finset.mem_sdiff, Finset.mem_insert, List.mem_toFinset]
        constructor
        · rintro ⟨h | h, hx⟩
          · exact absurd (h ▸ hk) hx
          · exact ⟨h, hx⟩
        · rintro ⟨h, hx⟩
          exact ⟨Or.inr h, hx⟩
      rw [h1, h2]
      simp [hk]
    · have h2 : insert k ks.toFinset \ seen.toFinset =
          insert k (ks.toFinset \ insert k seen.toFinset) := by
        ext x
        simp only [Finset.mem_sdiff, Finset.mem_insert, List.mem_toFinset]
        constructor
        · rintro ⟨h | h, hx⟩
          · exact Or.inl h
          · by_cases hxk : x = k
            · exact Or.inl hxk
            · exact Or.inr ⟨h, fun h3 => h3.elim hxk hx⟩
        · rintro (h | ⟨h, hx⟩)
          · exact ⟨Or.inl h, h ▸ hk⟩
          · exact ⟨Or.inr h, fun h3 => hx (Or.inr h3)⟩
      have h3 : k ∉ ks.toFinset \ insert k seen.toFinset := by
        simp
      rw [h2, Finset.card_insert_of_not_mem h3]
      simp [hk, Nat.add_comm]

/-- The mark at index `i` tells whether the string there is new. -/
theorem getElem?_firstOccurrences (seen ks : List String) (i : Nat) (k : String)
    (hk : ks[i]? = some k) :
    (firstOccurrences seen ks)[i]? = some (decide (k ∉ seen ∧ k ∉ ks.take i)) := by
  induction ks generalizing seen i with
  | nil => simp at hk
  | cons a ks ih =>
    cases i with
    | zero =>
      simp only [List.getElem?_cons_zero, Option.some.injEq] at hk
      subst hk
      simp [firstOccurrences]
    | succ i =>
      simp only [List.getElem?_cons_succ] at hk
      simp only [firstOccurrences, List.getElem?_cons_succ, ih (a :: seen) i hk,
        List.take_succ_cons, List.mem_cons, not_or]
      congr 1
      apply decide_eq_decide.mpr
      constructor
      · rintro ⟨⟨h1, h2⟩, h3⟩
        exact ⟨h2, h1, h3⟩
      · rintro ⟨h2, h1, h3⟩
        exact ⟨⟨h1, h2⟩, h3⟩

/-- Each successful call adds one entry to `keyMap_`, a rejected call none. -/
theorem size_regShortcuts (qt : QKeySequenceApi K) (sm : ShortcutManager)
    (cs : List (RegCall K cb)) (w : MainWindow K cb) :
    (regShortcuts qt sm w cs).keyMap_.size =
      w.keyMap_.size + (regShortcutResults qt sm w cs).count true := by
  induction cs generalizing w with
  | nil => simp [regShortcuts, regShortcutResults]
  | cons c cs ih =>
    simp only [regShortcuts, regShortcutResults, ih, List.count_cons]
    cases h : w.keyMap_.contains (qt.toString (c.key qt sm))
    · have hfilter : w.keyMap_.entries.filter
          (fun p => decide (p.1 ≠ qt.toString (c.key qt sm))) = w.keyMap_.entries := by
        rw [List.filter_eq_self]
        intro p hp
        simp only [QMap.contains, List.any_eq_false, decide_eq_true_eq] at h
        simpa using h p hp
      rw [regShortcut_snd_of_not_contains qt sm w c h, regShortcut_fst, h]
      simp only [QMap.size, QMap.insert, hfilter, List.length_cons, Bool.not_false,
        beq_self_eq_true, if_true]
      omega
    · rw [regShortcut_snd_of_contains qt sm w c h, regShortcut_fst, h]
      simp

end Counting

/-! ## The registration contract -/

section Contract

variable {K cb : Type}

/-- C1: when the canonical string of `k` is already in `keyMap_`, both
key-sequence overloads of `regShortcut` return false and leave the window as
it was: `keyMap_` is unchanged and no listener or connection is created. -/
theorem regShortcut_registered_key_rejected (qt : QKeySequenceApi K) (w : MainWindow K cb)
    (k : K) (func func2 : cb) (h : w.keyMap_.contains (qt.toString k) = true) :
    regShortcut_QKeySequence_T qt w k func = (false, w) ∧
    regShortcut_QKeySequence_T_U qt w k func func2 = (false, w) := by
  simp [regShortcut_QKeySequence_T, regShortcut_QKeySequence_T_U, h]

/-- C1 at a window holding "F12": a second registration of "F12" is rejected
by both overloads and changes nothing. -/
theorem regShortcut_registered_key_rejected_witness :
    (⟨⟨[("F12", true)]⟩, [⟨.QShortcut, "F12", [1], []⟩]⟩ : MainWindow String Nat).keyMap_.contains
        (textKeys.toString "F12") = true ∧
    (regShortcut_QKeySequence_T textKeys
        (⟨⟨[("F12", true)]⟩, [⟨.QShortcut, "F12", [1], []⟩]⟩ : MainWindow String Nat) "F12" 2 =
      (false, ⟨⟨[("F12", true)]⟩, [⟨.QShortcut, "F12", [1], []⟩]⟩) ∧
     regShortcut_QKeySequence_T_U textKeys
        (⟨⟨[("F12", true)]⟩, [⟨.QShortcut, "F12", [1], []⟩]⟩ : MainWindow String Nat) "F12" 2 3 =
      (false, ⟨⟨[("F12", true)]⟩, [⟨.QShortcut, "F12", [1], []⟩]⟩)) :=
  ⟨by decide, regShortcut_registered_key_rejected textKeys _ "F12" 2 3 (by decide)⟩

/-- C2: each key-sequence overload of `regShortcut` returns true exactly when
the canonical string of `k` was not in `keyMap_` before the call; when it
returns true, the string is in `keyMap_` afterwards and exactly one listener
has been added, bound to `k`, with the activation callback connected (and the
release callback for the two-callback overload). -/
theorem regShortcut_true_iff_unregistered (qt : QKeySequenceApi K) (w : MainWindow K cb)
    (k : K) (func func2 : cb) :
    ((regShortcut_QKeySequence_T qt w k func).1 = true ↔
      w.keyMap_.contains (qt.toString k) = false) ∧
    ((regShortcut_QKeySequence_T_U qt w k func func2).1 = true ↔
      w.keyMap_.contains (qt.toString k) = false) ∧
    ((regShortcut_QKeySequence_T qt w k func).1 = true →
      (regShortcut_QKeySequence_T qt w k func).2.keyMap_.contains (qt.toString k) = true ∧
      (regShortcut_QKeySequence_T qt w k func).2.children =
        w.children ++ [⟨.QShortcut, k, [func], []⟩]) ∧
    ((regShortcut_QKeySequence_T_U qt w k func func2).1 = true →
      (regShortcut_QKeySequence_T_U qt w k func func2).2.keyMap_.contains (qt.toString k) = true ∧
      (regShortcut_QKeySequence_T_U qt w k func func2).2.children =
        w.children ++ [⟨.SingleShortcut, k, [func], [func2]⟩]) := by
  cases h : w.keyMap_.contains (qt.toString k) <;>
    simp [regShortcut_QKeySequence_T, regShortcut_QKeySequence_T_U, h,
      QMap.contains_insert_self]

/-- C3: after any finite sequence of `regShortcut` calls on a newly constructed
window (any mix of the four overloads), a key string has exactly one listener
when it is in `keyMap_` and none otherwise. -/
theorem regShortcuts_one_listener_per_key (qt : QKeySequenceApi K) (sm : ShortcutManager)
    (cs : List (RegCall K cb)) (s : String) :
    (listenersFor qt (regShortcuts qt sm MainWindow.fresh cs) s).length =
      if (regShortcuts qt sm (MainWindow.fresh : MainWindow K cb) cs).keyMap_.contains s
      then 1 else 0 :=
  oneListenerPerKey_regShortcuts qt sm cs MainWindow.fresh (oneListenerPerKey_fresh qt) s

/-- C4: when the configuration resolves two distinct action names to the same
key sequence and the registry does not hold that key, registering the first
name returns true, registering the second returns false, and the second call
leaves the window, hence the listeners and connections of that key, exactly as
the first call left them.  Either name may use the press-only or the
press/release overload. -/
theorem same_key_second_name_rejected (qt : QKeySequenceApi K) (sm : ShortcutManager)
    (w : MainWindow K cb) (n1 n2 : String) (f1 f2 : cb) (g1 g2 : Option cb)
    (hne : n1 ≠ n2)
    (hsame : qt.fromString ((sm.shortcut n1).get "key").toString =
      qt.fromString ((sm.shortcut n2).get "key").toString)
    (hnew : w.keyMap_.contains
      (qt.toString (qt.fromString ((sm.shortcut n1).get "key").toString)) = false) :
    (regShortcut qt sm w ⟨.inl n1, f1, g1⟩).1 = true ∧
    (regShortcut qt sm (regShortcut qt sm w ⟨.inl n1, f1, g1⟩).2 ⟨.inl n2, f2, g2⟩).1 = false ∧
    (regShortcut qt sm (regShortcut qt sm w ⟨.inl n1, f1, g1⟩).2 ⟨.inl n2, f2, g2⟩).2 =
      (regShortcut qt sm w ⟨.inl n1, f1, g1⟩).2 ∧
    listenersFor qt
        (regShortcut qt sm (regShortcut qt sm w ⟨.inl n1, f1, g1⟩).2 ⟨.inl n2, f2, g2⟩).2
        (qt.toString (qt.fromString ((sm.shortcut n1).get "key").toString)) =
      listenersFor qt (regShortcut qt sm w ⟨.inl n1, f1, g1⟩).2
        (qt.toString (qt.fromString ((sm.shortcut n1).get "key").toString)) := by
  have _ := hne
  have hk1 : (⟨.inl n1, f1, g1⟩ : RegCall K cb).key qt sm =
      qt.fromString ((sm.shortcut n1).get "key").toString := rfl
  have hk2 : (⟨.inl n2, f2, g2⟩ : RegCall K cb).key qt sm =
      qt.fromString ((sm.shortcut n1).get "key").toString := hsame.symm
  have hin : (regShortcut qt sm w ⟨.inl n1, f1, g1⟩).2.keyMap_.contains
      (qt.toString ((⟨.inl n2, f2, g2⟩ : RegCall K cb).key qt sm)) = true := by
    rw [contains_regShortcut, hk1, hk2]
    simp
  have hsnd := regShortcut_snd_of_contains qt sm _ ⟨.inl n2, f2, g2⟩ hin
  refine ⟨?_, ?_, hsnd, ?_⟩
  · rw [regShortcut_fst, hk1, hnew]
    rfl
  · rw [regShortcut_fst, hin]
    rfl
  · rw [hsnd]

/-- C4 at the names "undo" and "revert", both configured to "Ctrl+Z", on a new
window. -/
theorem same_key_second_name_rejected_witness :
    ("undo" ≠ "revert" ∧
      textKeys.fromString ((exampleConfig.shortcut "undo").get "key").toString =
        textKeys.fromString ((exampleConfig.shortcut "revert").get "key").toString ∧
      (MainWindow.fresh : MainWindow String Nat).keyMap_.contains
        (textKeys.toString
          (textKeys.fromString ((exampleConfig.shortcut "undo").get "key").toString)) = false) ∧
    (regShortcut textKeys exampleConfig (MainWindow.fresh : MainWindow String Nat)
        ⟨.inl "undo", 1, none⟩).1 = true ∧
    (regShortcut textKeys exampleConfig
        (regShortcut textKeys exampleConfig (MainWindow.fresh : MainWindow String Nat)
          ⟨.inl "undo", 1, none⟩).2 ⟨.inl "revert", 2, some 3⟩).1 = false :=
  ⟨⟨by decide, by decide, by decide⟩,
    (same_key_second_name_rejected textKeys exampleConfig MainWindow.fresh "undo" "revert"
      1 2 none (some 3) (by decide) (by decide) (by decide)).1,
    (same_key_second_name_rejected textKeys exampleConfig MainWindow.fresh "undo" "revert"
      1 2 none (some 3) (by decide) (by decide) (by decide)).2.1⟩

/-- On a window whose listeners all come from `regShortcut` (one reached from a
new window by `regShortcut` calls) and that does not hold `k`: registering `k`
with callback `A` returns true, registering `k` again with callback `B` returns
false, and a key-down of `k` then invokes exactly the one slot `A`; `B`, when
it is another callback, is not invoked.  The windows built by `init` are not of
this kind: `toolbarInit` adds listeners of its own. -/
theorem first_callback_wins [DecidableEq K] (qt : QKeySequenceApi K) (sm : ShortcutManager)
    (cs : List (RegCall K cb)) (k : K) (A B : cb)
    (hnew : (regShortcuts qt sm (MainWindow.fresh : MainWindow K cb) cs).keyMap_.contains
      (qt.toString k) = false) :
    (regShortcut_QKeySequence_T qt (regShortcuts qt sm MainWindow.fresh cs) k A).1 = true ∧
    (regShortcut_QKeySequence_T qt
      (regShortcut_QKeySequence_T qt (regShortcuts qt sm MainWindow.fresh cs) k A).2 k B).1
        = false ∧
    keyPressEvent
      (regShortcut_QKeySequence_T qt
        (regShortcut_QKeySequence_T qt (regShortcuts qt sm MainWindow.fresh cs) k A).2 k B).2 k
        = [A] ∧
    (B ≠ A → B ∉ keyPressEvent
      (regShortcut_QKeySequence_T qt
        (regShortcut_QKeySequence_T qt (regShortcuts qt sm MainWindow.fresh cs) k A).2 k B).2 k)
    := by
  have hinv := oneListenerPerKey_regShortcuts qt sm cs MainWindow.fresh
    (oneListenerPerKey_fresh qt)
  have hnone := no_listener_of_not_contains qt _ hinv k hnew
  have hpress : keyPressEvent
      (regShortcut_QKeySequence_T qt
        (regShortcut_QKeySequence_T qt (regShortcuts qt sm MainWindow.fresh cs) k A).2 k B).2 k
        = [A] := by
    simp [keyPressEvent, regShortcut_QKeySequence_T, hnew, QMap.contains_insert_self,
      List.filter_append, hnone]
  refine ⟨?_, ?_, hpress, ?_⟩
  · simp [regShortcut_QKeySequence_T, hnew]
  · simp [regShortcut_QKeySequence_T, hnew, QMap.contains_insert_self]
  · intro hBA
    rw [hpress]
    simpa using hBA

/-- The first callback wins at the key "F12" with callbacks 1 and 2, on the
window in which only "Ctrl+Z" has been registered. -/
theorem first_callback_wins_witness :
    (regShortcuts textKeys exampleConfig (MainWindow.fresh : MainWindow String Nat)
        [⟨.inl "undo", 7, none⟩]).keyMap_.contains (textKeys.toString "F12") = false ∧
    keyPressEvent
      (regShortcut_QKeySequence_T textKeys
        (regShortcut_QKeySequence_T textKeys
          (regShortcuts textKeys exampleConfig (MainWindow.fresh : MainWindow String Nat)
            [⟨.inl "undo", 7, none⟩]) "F12" 1).2 "F12" 2).2 "F12" = [1] :=
  ⟨by decide,
    (first_callback_wins textKeys exampleConfig [⟨.inl "undo", 7, none⟩] "F12" 1 2
      (by decide)).2.2.1⟩

/-- On a window whose listeners all come from `regShortcut`, a key registered
through a press-only overload (by key sequence or by name) keeps, whatever is
registered later, exactly one listener, a `QShortcut` with only `activated`
connected to the callback; a key-up of that key invokes no slot and leaves the
window unchanged, and a key-down invokes the callback.  The windows built by
`init` are not of this kind: `toolbarInit` adds listeners of its own. -/
theorem press_only_release_no_effect [DecidableEq K] (qt : QKeySequenceApi K)
    (sm : ShortcutManager) (cs cs2 : List (RegCall K cb)) (c : RegCall K cb)
    (hc : c.func2 = none)
    (hreg : (regShortcut qt sm (regShortcuts qt sm MainWindow.fresh cs) c).1 = true) :
    keyReleaseEvent
        (regShortcuts qt sm (regShortcut qt sm (regShortcuts qt sm MainWindow.fresh cs) c).2 cs2)
        (c.key qt sm) =
      (regShortcuts qt sm (regShortcut qt sm (regShortcuts qt sm MainWindow.fresh cs) c).2 cs2,
        []) ∧
    listenersFor qt
        (regShortcuts qt sm (regShortcut qt sm (regShortcuts qt sm MainWindow.fresh cs) c).2 cs2)
        (qt.toString (c.key qt sm)) =
      [⟨.QShortcut, c.key qt sm, [c.func], []⟩] ∧
    keyPressEvent
        (regShortcuts qt sm (regShortcut qt sm (regShortcuts qt sm MainWindow.fresh cs) c).2 cs2)
        (c.key qt sm) = [c.func] := by
  have hinv := oneListenerPerKey_regShortcuts qt sm cs MainWindow.fresh
    (oneListenerPerKey_fresh qt)
  have hnew : (regShortcuts qt sm (MainWindow.fresh : MainWindow K cb) cs).keyMap_.contains
      (qt.toString (c.key qt sm)) = false := by
    rw [regShortcut_fst] at hreg
    simpa using hreg
  have hzero : listenersFor qt (regShortcuts qt sm (MainWindow.fresh : MainWindow K cb) cs)
      (qt.toString (c.key qt sm)) = [] := by
    have h0 := hinv (qt.toString (c.key qt sm))
    rw [hnew] at h0
    exact List.eq_nil_of_length_eq_zero (by simpa using h0)
  have hlis : c.listener qt sm = ⟨.QShortcut, c.key qt sm, [c.func], []⟩ := by
    unfold RegCall.listener
    rw [hc]
  have hone : listenersFor qt (regShortcut qt sm (regShortcuts qt sm MainWindow.fresh cs) c).2
      (qt.toString (c.key qt sm)) = [⟨.QShortcut, c.key qt sm, [c.func], []⟩] := by
    rw [listenersFor_regShortcut, if_pos ⟨hnew, rfl⟩, hzero, hlis]
    rfl
  have hin : (regShortcut qt sm (regShortcuts qt sm MainWindow.fresh cs) c).2.keyMap_.contains
      (qt.toString (c.key qt sm)) = true := by
    rw [contains_regShortcut]
    simp
  have hlater := (regShortcuts_of_contains qt sm cs2 _ _ hin).2
  rw [hone] at hlater
  refine ⟨?_, hlater, ?_⟩
  · simp [keyReleaseEvent, filter_key_eq_filter_listenersFor qt _ (c.key qt sm), hlater]
  · simp [keyPressEvent, filter_key_eq_filter_listenersFor qt _ (c.key qt sm), hlater]

/-- The release of a press-only key at the action "undo", configured to
"Ctrl+Z" and registered press-only, with a press/release registration of "F12"
following it. -/
theorem press_only_release_no_effect_witness :
    ((⟨.inl "undo", 1, none⟩ : RegCall String Nat).func2 = none ∧
      (regShortcut textKeys exampleConfig
        (regShortcuts textKeys exampleConfig MainWindow.fresh [⟨.inr "A", 5, some 6⟩])
        (⟨.inl "undo", 1, none⟩ : RegCall String Nat)).1 = true) ∧
    (keyReleaseEvent
        (regShortcuts textKeys exampleConfig
          (regShortcut textKeys exampleConfig
            (regShortcuts textKeys exampleConfig MainWindow.fresh [⟨.inr "A", 5, some 6⟩])
            (⟨.inl "undo", 1, none⟩ : RegCall String Nat)).2
          [⟨.inr "F12", 2, some 3⟩]) "Ctrl+Z").2 = [] :=
  ⟨⟨rfl, by decide⟩,
    congrArg Prod.snd
      (press_only_release_no_effect textKeys exampleConfig [⟨.inr "A", 5, some 6⟩]
        [⟨.inr "F12", 2, some 3⟩] ⟨.inl "undo", 1, none⟩ rfl (by decide)).1⟩

/-- C6 fails on the code, by the defect of C7: after `toolbarInit` with the
colour picker configured to "F12", the press-only registration of "F12" made by
`shortcutInit` returns true, yet in the window left by `init` a key-up of "F12"
invokes the click of the colour-picker button, through the listener
`toolbarInit` created on the same key without consulting `keyMap_`. -/
theorem init_F12_release_clicks_picker :
    (regShortcut_QKeySequence_T textKeys
      (toolbarInit textKeys pickerOnF12Config exampleBrushes true true MainWindow.fresh)
      "F12" .openConsole).1 = true ∧
    (keyReleaseEvent
      (regShortcut_QKeySequence_T textKeys
        (toolbarInit textKeys pickerOnF12Config exampleBrushes true true MainWindow.fresh)
        "F12" .openConsole).2 "F12").2 = [.click .colorPicker] ∧
    (keyReleaseEvent (init textKeys pickerOnF12Config exampleBrushes true true) "F12").2 =
      [.click .colorPicker] := by
  decide

/-- C7 fails on the code: with the colour picker configured to "F12",
`toolbarInit` followed by `shortcutInit` leaves two live listeners on the key
string "F12", the colour-picker `SingleShortcut` created without consulting
`keyMap_` and the console `QShortcut` registered through `regShortcut`. -/
theorem init_two_listeners_on_F12 :
    listenersFor textKeys (init textKeys pickerOnF12Config exampleBrushes true true) "F12" =
      [⟨.SingleShortcut, "F12", [.click .colorPicker], [.click .colorPicker]⟩,
       ⟨.QShortcut, "F12", [.openConsole], []⟩] := by
  decide

/-- C8: the two registration modes share one key namespace.  After a successful
press-only registration of `k`, and whatever is registered in between, a
press/release registration of `k` returns false; after a successful
press/release registration of `k` a press-only registration of `k` returns
false. -/
theorem registration_modes_share_keys (qt : QKeySequenceApi K) (sm : ShortcutManager)
    (w : MainWindow K cb) (cs : List (RegCall K cb)) (k : K) (f g h : cb) :
    ((regShortcut_QKeySequence_T qt w k f).1 = true →
      (regShortcut_QKeySequence_T_U qt
        (regShortcuts qt sm (regShortcut_QKeySequence_T qt w k f).2 cs) k g h).1 = false) ∧
    ((regShortcut_QKeySequence_T_U qt w k g h).1 = true →
      (regShortcut_QKeySequence_T qt
        (regShortcuts qt sm (regShortcut_QKeySequence_T_U qt w k g h).2 cs) k f).1 = false) := by
  constructor
  · intro h1
    have hin : (regShortcut_QKeySequence_T qt w k f).2.keyMap_.contains (qt.toString k)
        = true := ((regShortcut_true_iff_unregistered_aux qt w k f g).2.2.1 h1)
    have hlater := (regShortcuts_of_contains qt sm cs _ _ hin).1
    simp [regShortcut_QKeySequence_T_U, hlater]
  · intro h1
    have hin : (regShortcut_QKeySequence_T_U qt w k g h).2.keyMap_.contains (qt.toString k)
        = true := ((regShortcut_true_iff_unregistered_aux qt w k g h).2.2.2 h1)
    have hlater := (regShortcuts_of_contains qt sm cs _ _ hin).1
    simp [regShortcut_QKeySequence_T, hlater]

/-- C8 at the key "F12" on a new window, in both orders, with a registration
of "A" in between. -/
theorem registration_modes_share_keys_witness :
    ((regShortcut_QKeySequence_T textKeys (MainWindow.fresh : MainWindow String Nat)
        "F12" 1).1 = true ∧
      (regShortcut_QKeySequence_T_U textKeys
        (regShortcuts textKeys exampleConfig
          (regShortcut_QKeySequence_T textKeys (MainWindow.fresh : MainWindow String Nat)
            "F12" 1).2 [⟨.inr "A", 9, none⟩]) "F12" 2 3).1 = false) ∧
    ((regShortcut_QKeySequence_T_U textKeys (MainWindow.fresh : MainWindow String Nat)
        "F12" 2 3).1 = true ∧
      (regShortcut_QKeySequence_T textKeys
        (regShortcuts textKeys exampleConfig
          (regShortcut_QKeySequence_T_U textKeys (MainWindow.fresh : MainWindow String Nat)
            "F12" 2 3).2 [⟨.inr "A", 9, none⟩]) "F12" 1).1 = false) :=
  ⟨⟨by decide,
      (registration_modes_share_keys textKeys exampleConfig MainWindow.fresh
        [⟨.inr "A", 9, none⟩] "F12" 1 2 3).1 (by decide)⟩,
    ⟨by decide,
      (registration_modes_share_keys textKeys exampleConfig MainWindow.fresh
        [⟨.inr "A", 9, none⟩] "F12" 1 2 3).2 (by decide)⟩⟩

/-- C9: each name-based overload of `regShortcut` returns the same value and
the same window as the corresponding key-sequence overload called with the
key sequence built from the text of the "key" field of the record the
configuration returns for the name. -/
theorem regShortcut_by_name_eq_by_key (qt : QKeySequenceApi K) (sm : ShortcutManager)
    (w : MainWindow K cb) (name : String) (f f2 : cb) :
    regShortcut_QString_T qt sm w name f =
      regShortcut_QKeySequence_T qt w
        (qt.fromString (QVariant.toString (QVariantMap.get (sm.shortcut name) "key"))) f ∧
    regShortcut_QString_T_U qt sm w name f f2 =
      regShortcut_QKeySequence_T_U qt w
        (qt.fromString (QVariant.toString (QVariantMap.get (sm.shortcut name) "key"))) f f2 :=
  ⟨rfl, rfl⟩

/-- C10: registering an empty key sequence is permitted.  When the record of
an action name has no key text, so that the name resolves to the empty
sequence with canonical string "", and the registry does not hold "", then
`regShortcut` by that name (either mode) returns true and "" is in `keyMap_`
afterwards; every later registration of a sequence with canonical string "",
in particular of any other name without key text, returns false. -/
theorem empty_key_registered_once (qt : QKeySequenceApi K) (sm : ShortcutManager)
    (w : MainWindow K cb) (name : String) (f : cb) (g : Option cb)
    (hempty : qt.toString (qt.fromString "") = "")
    (hname : ((sm.shortcut name).get "key").toString = "")
    (hnew : w.keyMap_.contains "" = false) :
    (regShortcut qt sm w ⟨.inl name, f, g⟩).1 = true ∧
    (regShortcut qt sm w ⟨.inl name, f, g⟩).2.keyMap_.contains "" = true ∧
    (∀ (cs : List (RegCall K cb)) (c : RegCall K cb), qt.toString (c.key qt sm) = "" →
      (regShortcut qt sm (regShortcuts qt sm (regShortcut qt sm w ⟨.inl name, f, g⟩).2 cs) c).1
        = false) ∧
    (∀ (cs : List (RegCall K cb)) (name2 : String) (f2 : cb) (g2 : Option cb),
      ((sm.shortcut name2).get "key").toString = "" →
      (regShortcut qt sm (regShortcuts qt sm (regShortcut qt sm w ⟨.inl name, f, g⟩).2 cs)
        ⟨.inl name2, f2, g2⟩).1 = false) := by
  have hkey : qt.toString ((⟨.inl name, f, g⟩ : RegCall K cb).key qt sm) = "" := by
    simp only [RegCall.key, hname, hempty]
  have hin : (regShortcut qt sm w ⟨.inl name, f, g⟩).2.keyMap_.contains "" = true := by
    rw [contains_regShortcut, hkey]
    simp
  have hlater : ∀ (cs : List (RegCall K cb)) (c : RegCall K cb),
      qt.toString (c.key qt sm) = "" →
      (regShortcut qt sm (regShortcuts qt sm (regShortcut qt sm w ⟨.inl name, f, g⟩).2 cs) c).1
        = false := by
    intro cs c hc
    rw [regShortcut_fst, hc, (regShortcuts_of_contains qt sm cs _ "" hin).1]
    rfl
  refine ⟨?_, hin, hlater, ?_⟩
  · rw [regShortcut_fst, hkey, hnew]
    rfl
  · intro cs name2 f2 g2 h2
    apply hlater
    simp only [RegCall.key, h2, hempty]

/-- C10 at the unconfigured action "zoomin" on a new window, followed by the
unconfigured action "zoomout". -/
theorem empty_key_registered_once_witness :
    (textKeys.toString (textKeys.fromString "") = "" ∧
      ((exampleConfig.shortcut "zoomin").get "key").toString = "" ∧
      (MainWindow.fresh : MainWindow String Nat).keyMap_.contains "" = false) ∧
    (regShortcut textKeys exampleConfig (MainWindow.fresh : MainWindow String Nat)
      ⟨.inl "zoomin", 1, none⟩).1 = true ∧
    (regShortcut textKeys exampleConfig
      (regShortcuts textKeys exampleConfig
        (regShortcut textKeys exampleConfig (MainWindow.fresh : MainWindow String Nat)
          ⟨.inl "zoomin", 1, none⟩).2 [])
      ⟨.inl "zoomout", 2, none⟩).1 = false :=
  ⟨⟨by decide, by decide, by decide⟩,
    (empty_key_registered_once textKeys exampleConfig MainWindow.fresh "zoomin" 1 none
      (by decide) (by decide) (by decide)).1,
    (empty_key_registered_once textKeys exampleConfig MainWindow.fresh "zoomin" 1 none
      (by decide) (by decide) (by decide)).2.2.2 [] "zoomout" 2 none (by decide)⟩

end Contract

/-! ## Lifetime and frame properties of the registry -/

section Lifetime

variable {K cb : Type}

/-- C11: a newly created registry accepts any key.  When `k` is registered
twice in one registry the second attempt is rejected, yet the first
registration of `k` in a new window returns true; and the return value of a
call is determined by `keyMap_` of the window it is made on, nothing else of
the window and nothing of an earlier window enters. -/
theorem fresh_registry_accepts_any_key (qt : QKeySequenceApi K) (sm : ShortcutManager)
    (w : MainWindow K cb) (k : K) (f1 f2 f3 : cb) (g1 g2 g3 : Option cb) :
    (regShortcut qt sm (regShortcut qt sm w ⟨.inr k, f1, g1⟩).2 ⟨.inr k, f2, g2⟩).1 = false ∧
    (regShortcut qt sm (MainWindow.fresh : MainWindow K cb) ⟨.inr k, f3, g3⟩).1 = true ∧
    (∀ (w1 w2 : MainWindow K cb) (c : RegCall K cb), w1.keyMap_ = w2.keyMap_ →
      (regShortcut qt sm w1 c).1 = (regShortcut qt sm w2 c).1) := by
  refine ⟨?_, ?_, ?_⟩
  · rw [regShortcut_fst, contains_regShortcut]
    simp [RegCall.key]
  · rw [regShortcut_fst]
    simp [MainWindow.fresh, QMap.contains_empty]
  · intro w1 w2 c h
    rw [regShortcut_fst, regShortcut_fst, h]

/-- C12: bindings are never removed.  A key string that is in `keyMap_` before
a `regShortcut` call (any overload, any outcome) is in `keyMap_` after it and
after any further calls, so every later attempt to register a key with that
string returns false. -/
theorem registered_keys_stay_registered (qt : QKeySequenceApi K) (sm : ShortcutManager)
    (w : MainWindow K cb) (c : RegCall K cb) (s : String)
    (h : w.keyMap_.contains s = true) :
    (regShortcut qt sm w c).2.keyMap_.contains s = true ∧
    (∀ cs : List (RegCall K cb), (regShortcuts qt sm w cs).keyMap_.contains s = true) ∧
    (∀ (cs : List (RegCall K cb)) (c2 : RegCall K cb), qt.toString (c2.key qt sm) = s →
      (regShortcut qt sm (regShortcuts qt sm w cs) c2).1 = false) := by
  refine ⟨?_, ?_, ?_⟩
  · rw [contains_regShortcut, h]
    simp
  · intro cs
    exact (regShortcuts_of_contains qt sm cs w s h).1
  · intro cs c2 hc2
    rw [regShortcut_fst, hc2, (regShortcuts_of_contains qt sm cs w s h).1]
    rfl

/-- C12 at a window holding "F12": a registration of "A" keeps "F12", and a
later registration of "F12" is rejected. -/
theorem registered_keys_stay_registered_witness :
    (⟨⟨[("F12", true)]⟩, [⟨.QShortcut, "F12", [1], []⟩]⟩ : MainWindow String Nat).keyMap_.contains
        "F12" = true ∧
    (regShortcut textKeys exampleConfig
        (⟨⟨[("F12", true)]⟩, [⟨.QShortcut, "F12", [1], []⟩]⟩ : MainWindow String Nat)
        ⟨.inr "A", 2, none⟩).2.keyMap_.contains "F12" = true ∧
    (regShortcut textKeys exampleConfig
        (regShortcuts textKeys exampleConfig
          (⟨⟨[("F12", true)]⟩, [⟨.QShortcut, "F12", [1], []⟩]⟩ : MainWindow String Nat)
          [⟨.inr "A", 2, none⟩])
        ⟨.inr "F12", 3, some 4⟩).1 = false :=
  ⟨by decide,
    (registered_keys_stay_registered textKeys exampleConfig _ ⟨.inr "A", 2, none⟩ "F12"
      (by decide)).1,
    (registered_keys_stay_registered textKeys exampleConfig _ ⟨.inr "A", 2, none⟩ "F12"
      (by decide)).2.2 [⟨.inr "A", 2, none⟩] ⟨.inr "F12", 3, some 4⟩ (by decide)⟩

/-- C18: registration only touches its own key.  For a key string `s` other
than the canonical string of the key of the call, `s` is in `keyMap_` after
the call exactly when it was before, and the listeners of `s`, with their
connections, are the same, whether the call succeeds or fails. -/
theorem registration_touches_only_its_key (qt : QKeySequenceApi K) (sm : ShortcutManager)
    (w : MainWindow K cb) (c : RegCall K cb) (s : String)
    (hs : s ≠ qt.toString (c.key qt sm)) :
    (regShortcut qt sm w c).2.keyMap_.contains s = w.keyMap_.contains s ∧
    listenersFor qt (regShortcut qt sm w c).2 s = listenersFor qt w s := by
  have hne : ¬ qt.toString (c.key qt sm) = s := fun h => hs h.symm
  constructor
  · rw [contains_regShortcut]
    simp [hne]
  · rw [listenersFor_regShortcut]
    simp [hne]

/-- C18 at a window holding "F12" when "A" is registered: the entry and the
listener of "F12" are untouched. -/
theorem registration_touches_only_its_key_witness :
    "F12" ≠ textKeys.toString
      ((⟨.inr "A", 2, none⟩ : RegCall String Nat).key textKeys exampleConfig) ∧
    listenersFor textKeys
      (regShortcut textKeys exampleConfig
        (⟨⟨[("F12", true)]⟩, [⟨.QShortcut, "F12", [1], []⟩]⟩ : MainWindow String Nat)
        ⟨.inr "A", 2, none⟩).2 "F12" =
      listenersFor textKeys
        (⟨⟨[("F12", true)]⟩, [⟨.QShortcut, "F12", [1], []⟩]⟩ : MainWindow String Nat) "F12" :=
  ⟨by decide,
    (registration_touches_only_its_key textKeys exampleConfig _ ⟨.inr "A", 2, none⟩ "F12"
      (by decide)).2⟩

/-- C17: on a newly constructed window, the number of calls of a sequence
that return true is the number of distinct canonical key strings in the
sequence, which is also the size of `keyMap_` afterwards; and the call at
index `i` returns true exactly when its key string does not occur among the
key strings of the calls before it. -/
theorem regShortcut_true_count_eq_distinct_keys (qt : QKeySequenceApi K)
    (sm : ShortcutManager) (cs : List (RegCall K cb)) :
    (regShortcutResults qt sm MainWindow.fresh cs).count true =
      (keyStrings qt sm cs).dedup.length ∧
    (regShortcuts qt sm (MainWindow.fresh : MainWindow K cb) cs).keyMap_.size =
      (keyStrings qt sm cs).dedup.length ∧
    (regShortcutResults qt sm MainWindow.fresh cs).length = cs.length ∧
    (∀ (i : Nat) (k : String), (keyStrings qt sm cs)[i]? = some k →
      (regShortcutResults qt sm MainWindow.fresh cs)[i]? =
        some (decide (k ∉ (keyStrings qt sm cs).take i))) := by
  have hres := regShortcutResults_eq_firstOccurrences qt sm cs
    (MainWindow.fresh : MainWindow K cb) []
    (by intro s; simp [MainWindow.fresh, QMap.contains_empty])
  have hcount : (regShortcutResults qt sm MainWindow.fresh cs).count true =
      (keyStrings qt sm cs).dedup.length := by
    rw [hres, count_firstOccurrences, ← List.card_toFinset]
    simp
  refine ⟨hcount, ?_, ?_, ?_⟩
  · rw [size_regShortcuts, hcount]
    simp [MainWindow.fresh, QMap.size, QMap.empty]
  · rw [hres, length_firstOccurrences]
    simp [keyStrings]
  · intro i k hk
    rw [hres, getElem?_firstOccurrences [] _ i k hk]
    simp

end Lifetime

/-! ## Network indicator and chat input -/

/-- C19: `onDelayGet` sets UNKNOWN for a negative delay, NONE above 60, LOW
above 20 up to 60, MEDIUM above 10 up to 20, GOOD from 0 to 9; for the delay
10 it makes no `setLevel` call, so the indicator is left as it was; for every
other delay it makes exactly one call. -/
theorem onDelayGet_levels (delay : Int) :
    (delay < 0 → onDelayGet delay = [.UNKNOWN]) ∧
    (delay > 60 → onDelayGet delay = [.NONE]) ∧
    (20 < delay ∧ delay ≤ 60 → onDelayGet delay = [.LOW]) ∧
    (10 < delay ∧ delay ≤ 20 → onDelayGet delay = [.MEDIUM]) ∧
    (0 ≤ delay ∧ delay < 10 → onDelayGet delay = [.GOOD]) ∧
    (delay = 10 → onDelayGet delay = []) ∧
    (delay ≠ 10 → (onDelayGet delay).length = 1) := by
  unfold onDelayGet
  refine ⟨?_, ?_, ?_, ?_, ?_, ?_, ?_⟩
  · intro h
    simp [h]
  · intro h
    have h0 : ¬ delay < 0 := by omega
    simp [h, h0]
  · rintro ⟨h1, h2⟩
    have h0 : ¬ delay < 0 := by omega
    have h3 : ¬ delay > 60 := by omega
    simp [h0, h3, h1]
  · rintro ⟨h1, h2⟩
    have h0 : ¬ delay < 0 := by omega
    have h3 : ¬ delay > 60 := by omega
    have h4 : ¬ delay > 20 := by omega
    simp [h0, h3, h4, h1]
  · rintro ⟨h1, h2⟩
    have h0 : ¬ delay < 0 := by omega
    have h3 : ¬ delay > 60 := by omega
    have h4 : ¬ delay > 20 := by omega
    have h5 : ¬ delay > 10 := by omega
    simp [h0, h3, h4, h5, h2]
  · intro h
    subst h
    decide
  · intro h
    split_ifs <;> first | rfl | omega

/-- C19 evaluated at the boundary delays. -/
theorem onDelayGet_levels_witness :
    onDelayGet (-1) = [.UNKNOWN] ∧ onDelayGet 61 = [.NONE] ∧ onDelayGet 60 = [.LOW] ∧
    onDelayGet 21 = [.LOW] ∧ onDelayGet 20 = [.MEDIUM] ∧ onDelayGet 11 = [.MEDIUM] ∧
    onDelayGet 9 = [.GOOD] ∧ onDelayGet 0 = [.GOOD] ∧ onDelayGet 10 = [] :=
  ⟨(onDelayGet_levels (-1)).1 (by decide), (onDelayGet_levels 61).2.1 (by decide),
    (onDelayGet_levels 60).2.2.1 (by decide), (onDelayGet_levels 21).2.2.1 (by decide),
    (onDelayGet_levels 20).2.2.2.1 (by decide), (onDelayGet_levels 11).2.2.2.1 (by decide),
    (onDelayGet_levels 9).2.2.2.2.1 (by decide), (onDelayGet_levels 0).2.2.2.2.1 (by decide),
    (onDelayGet_levels 10).2.2.2.2.2.1 rfl⟩

/-- A string without code units is the empty string. -/
theorem QString.count_eq_zero_iff (s : String) : QString.count s = 0 ↔ s = "" := by
  constructor
  · intro h
    unfold QString.count at h
    have hl : s.toList = [] := by
      cases hs : s.toList with
      | nil => rfl
      | cons c cs =>
        rw [hs] at h
        simp only [List.map_cons, List.sum_cons] at h
        split_ifs at h <;> omega
    exact String.ext (by simpa using hl)
  · intro h
    subst h
    rfl

/-- C20: `onSendPressed` emits `sendMessage` exactly when the text of the line
edit has between 1 and 256 code units; it then emits the one message
`userName + ": " + text + "\n"` and commits the line edit; for an empty text
or one longer than 256 it emits nothing and does not commit. -/
theorem onSendPressed_emits_iff (userName text : String) :
    ((onSendPressed userName text).sendMessage ≠ [] ↔
      1 ≤ QString.count text ∧ QString.count text ≤ 256) ∧
    (1 ≤ QString.count text ∧ QString.count text ≤ 256 →
      onSendPressed userName text =
        { sendMessage := [userName ++ ": " ++ text ++ "\n"], commit := true }) ∧
    (QString.count text = 0 ∨ 256 < QString.count text →
      onSendPressed userName text = { sendMessage := [], commit := false }) := by
  unfold onSendPressed QString.isEmpty
  by_cases h0 : QString.count text = 0
  · simp [h0]
  · by_cases h1 : QString.count text > 256
    · have h2 : ¬ QString.count text ≤ 256 := by omega
      simp [h0, h1, h2]
    · have h2 : QString.count text ≤ 256 := by omega
      have h3 : 1 ≤ QString.count text := by omega
      simp [h0, h1, h2, h3]

/-- C20 evaluated at the text "hi" typed by "ann" and at the empty text. -/
theorem onSendPressed_emits_iff_witness :
    onSendPressed "ann" "hi" = { sendMessage := ["ann: hi\n"], commit := true } ∧
    onSendPressed "ann" "" = { sendMessage := [], commit := false } :=
  ⟨(onSendPressed_emits_iff "ann" "hi").2.1 (by decide),
    (onSendPressed_emits_iff "ann" "").2.2 (Or.inl (by decide))⟩

/-! ## Room key and clearing all layers -/

section RoomKey

variable {V : Type}

theorem QString.isEmpty_iff (s : String) : QString.isEmpty s = true ↔ s = "" := by
  simp [QString.isEmpty, QString.count_eq_zero_iff]

/-- C15 as stated fails in its last sentence: a store that has the entry
"rooms/" + MD5 of the room name, holding the empty text, makes `getRoomKey`
return the empty string although the entry exists. -/
theorem getRoomKey_empty_though_entry_exists :
    getRoomKey storedValueApi exampleMd5Hex emptyRoomKeyStore "lobby" = "" ∧
    emptyRoomKeyStore.contains ("rooms/" ++ exampleMd5Hex "lobby") = true := by
  decide

/-- C15, amended: `clearAllLayer` sends a command pack exactly when the user
answers Yes and `getRoomKey` returns a non-empty key; when the user answers Yes
and the key is empty, the warning dialog is shown and nothing is sent; a pack
that is sent has request "clearall", type "command" and the room key as key.
`getRoomKey` returns the empty string exactly when the store has no entry
"rooms/" + hex MD5 of the room name or the text of that entry is empty. -/
theorem clearAllLayer_sends_iff_owner (api : QVariantApi V) (md5Hex : String → String)
    (settings : QSettings V) (roomName : String) (result : StandardButton) :
    ((∃ map, ClearAllEffect.sendCmdPack map ∈
        clearAllLayer api md5Hex settings roomName result) ↔
      result = .Yes ∧ getRoomKey api md5Hex settings roomName ≠ "") ∧
    (result = .Yes → getRoomKey api md5Hex settings roomName = "" →
      clearAllLayer api md5Hex settings roomName result = [.question, .warning]) ∧
    (∀ map, ClearAllEffect.sendCmdPack map ∈
        clearAllLayer api md5Hex settings roomName result →
      map.value? "request" = some "clearall" ∧ map.value? "type" = some "command" ∧
      map.value? "key" = some (getRoomKey api md5Hex settings roomName)) ∧
    (getRoomKey api md5Hex settings roomName = "" ↔
      settings.contains ("rooms/" ++ md5Hex roomName) = false ∨
      api.stringOf (settings.value ("rooms/" ++ md5Hex roomName)) = "") := by
  refine ⟨?_, ?_, ?_, ?_⟩
  · cases result
    · by_cases hk : getRoomKey api md5Hex settings roomName = ""
      · simp [clearAllLayer, hk, QString.isEmpty_iff]
      · simp [clearAllLayer, hk, QString.isEmpty_iff]
    · simp [clearAllLayer]
  · intro hr hk
    subst hr
    simp [clearAllLayer, hk, QString.isEmpty_iff]
  · intro map hmap
    cases result
    · by_cases hk : getRoomKey api md5Hex settings roomName = ""
      · simp [clearAllLayer, hk, QString.isEmpty_iff] at hmap
      · simp only [clearAllLayer, if_true, QString.isEmpty_iff, hk, if_false, List.mem_cons,
          ClearAllEffect.sendCmdPack.injEq, List.mem_singleton, false_or,
          List.not_mem_nil, or_false, reduceCtorEq] at hmap
        subst hmap
        refine ⟨?_, ?_, ?_⟩ <;> simp [QMap.value?, QMap.insert, QMap.empty]
    · simp [clearAllLayer] at hmap
  · cases hc : settings.contains ("rooms/" ++ md5Hex roomName) <;>
      simp [getRoomKey, hc]

/-- C15 evaluated on a store holding the key "s3cret" for the room "lobby",
with the answer Yes, and on the store with an empty key. -/
theorem clearAllLayer_sends_iff_owner_witness :
    clearAllLayer storedValueApi exampleMd5Hex ownerStore "lobby" .Yes =
      [.question, .sendCmdPack
        ⟨[("key", "s3cret"), ("type", "command"), ("request", "clearall")]⟩] ∧
    clearAllLayer storedValueApi exampleMd5Hex emptyRoomKeyStore "lobby" .Yes =
      [.question, .warning] ∧
    clearAllLayer storedValueApi exampleMd5Hex ownerStore "lobby" .No = [.question] :=
  ⟨by decide,
    (clearAllLayer_sends_iff_owner storedValueApi exampleMd5Hex emptyRoomKeyStore "lobby"
      .Yes).2.1 rfl (by decide),
    by decide⟩

end RoomKey

/-! ## Settings written at shutdown and read at startup -/

section Shutdown

variable {V : Type}

theorem QSettings.value_setValue_self (settings : QSettings V) (key : String) (value : V) :
    (settings.setValue key value).value key = some value := by
  simp [QSettings.value, QSettings.setValue, QMap.value?, QMap.insert]

theorem QSettings.value_setValue_of_ne (settings : QSettings V) (key key2 : String)
    (value : V) (h : key2 ≠ key) :
    (settings.setValue key value).value key2 = settings.value key2 := by
  have h1 : ¬ key = key2 := fun h2 => h h2.symm
  simp only [QSettings.value, QSettings.setValue, QMap.value?, QMap.insert]
  rw [List.find?_cons_of_neg _ (by simpa using h1), List.find?_filter]
  have hfun : (fun a : String × V =>
        decide (decide (a.1 ≠ key) = true ∧ decide (a.1 = key2) = true)) =
      (fun a : String × V => decide (a.1 = key2)) := by
    funext a
    by_cases ha : a.1 = key2
    · simp [ha, h]
    · simp [ha]
  rw [hfun]

/-- C16: `closeEvent` stores the colour-grid export under "colorgrid/pal" and
the window state under "mainwindow/view"; on the store it leaves, `colorGridInit`
passes that export to `dataImport` and `viewInit` passes that state to
`restoreState`, the blobs surviving the conversion to and from `QVariant`; on
any store each passes exactly the blob stored under its key and does nothing
when that blob is absent or empty; and `closeEvent` calls `saveLayers` exactly
when the setting "canvas/skip_replay", true by default, is true. -/
theorem settings_written_at_close_are_read_at_start (api : QVariantApi V)
    (settings : QSettings V) (dataExport saveState : QByteArray)
    (hpal : api.toByteArray (api.fromByteArray dataExport) = dataExport)
    (hview : api.toByteArray (api.fromByteArray saveState) = saveState) :
    (closeEvent api settings dataExport saveState).1.value "colorgrid/pal" =
      some (api.fromByteArray dataExport) ∧
    (closeEvent api settings dataExport saveState).1.value "mainwindow/view" =
      some (api.fromByteArray saveState) ∧
    colorGridInit api (closeEvent api settings dataExport saveState).1 =
      (if dataExport = [] then none else some dataExport) ∧
    viewInit api (closeEvent api settings dataExport saveState).1 =
      (if saveState = [] then none else some saveState) ∧
    (∀ stored : QSettings V,
      (api.byteArrayOf (stored.value "colorgrid/pal") = [] → colorGridInit api stored = none) ∧
      (api.byteArrayOf (stored.value "colorgrid/pal") ≠ [] →
        colorGridInit api stored = some (api.byteArrayOf (stored.value "colorgrid/pal"))) ∧
      (api.byteArrayOf (stored.value "mainwindow/view") = [] → viewInit api stored = none) ∧
      (api.byteArrayOf (stored.value "mainwindow/view") ≠ [] →
        viewInit api stored = some (api.byteArrayOf (stored.value "mainwindow/view")))) ∧
    (CloseEffect.saveLayers ∈ (closeEvent api settings dataExport saveState).2 ↔
      api.boolOr true (settings.value "canvas/skip_replay") = true) := by
  have hv1 : (closeEvent api settings dataExport saveState).1.value "colorgrid/pal" =
      some (api.fromByteArray dataExport) := by
    simp only [closeEvent]
    rw [QSettings.value_setValue_of_ne _ _ _ _ (by decide), QSettings.value_setValue_self]
  have hv2 : (closeEvent api settings dataExport saveState).1.value "mainwindow/view" =
      some (api.fromByteArray saveState) := by
    simp only [closeEvent]
    rw [QSettings.value_setValue_self]
  have hskip : ((settings.setValue "colorgrid/pal" (api.fromByteArray dataExport)).setValue
      "mainwindow/view" (api.fromByteArray saveState)).value "canvas/skip_replay" =
      settings.value "canvas/skip_replay" := by
    rw [QSettings.value_setValue_of_ne _ _ _ _ (by decide),
      QSettings.value_setValue_of_ne _ _ _ _ (by decide)]
  refine ⟨hv1, hv2, ?_, ?_, ?_, ?_⟩
  · simp only [colorGridInit, hv1, QVariantApi.byteArrayOf, hpal]
    cases dataExport <;> simp
  · simp only [viewInit, hv2, QVariantApi.byteArrayOf, hview]
    cases saveState <;> simp
  · intro stored
    refine ⟨?_, ?_, ?_, ?_⟩
    · intro h
      simp [colorGridInit, h]
    · intro h
      simp [colorGridInit, h]
    · intro h
      simp [viewInit, h]
    · intro h
      simp [viewInit, h]
  · simp only [closeEvent, hskip]
    cases api.boolOr true (settings.value "canvas/skip_replay") <;> simp

/-- C16 evaluated on a store with replay skipping switched off, a palette blob
of three bytes and an empty window state. -/
theorem settings_written_at_close_are_read_at_start_witness :
    (storedValueApi.toByteArray (storedValueApi.fromByteArray [1, 2, 3]) = [1, 2, 3] ∧
      storedValueApi.toByteArray (storedValueApi.fromByteArray []) = []) ∧
    colorGridInit storedValueApi (closeEvent storedValueApi ownerStore [1, 2, 3] []).1 =
      some [1, 2, 3] ∧
    viewInit storedValueApi (closeEvent storedValueApi ownerStore [1, 2, 3] []).1 = none ∧
    CloseEffect.saveLayers ∉ (closeEvent storedValueApi ownerStore [1, 2, 3] []).2 :=
  ⟨⟨rfl, rfl⟩,
    (settings_written_at_close_are_read_at_start storedValueApi ownerStore [1, 2, 3] []
      rfl rfl).2.2.1,
    (settings_written_at_close_are_read_at_start storedValueApi ownerStore [1, 2, 3] []
      rfl rfl).2.2.2.1,
    by decide⟩

end Shutdown

/-! ## Brush shortcuts -/

section BrushShortcuts

variable {K : Type}

theorem mem_children_regShortcut_QKeySequence_T_U {cb : Type} (qt : QKeySequenceApi K)
    (w : MainWindow K cb) (k : K) (f g : cb) (l : ShortcutObject K cb)
    (hl : l ∈ (regShortcut_QKeySequence_T_U qt w k f g).2.children) :
    l ∈ w.children ∨ l = ⟨.SingleShortcut, k, [f], [g]⟩ := by
  unfold regShortcut_QKeySequence_T_U at hl
  split_ifs at hl
  · exact Or.inl hl
  · simpa using hl

theorem mem_children_regShortcut_QString_T {cb : Type} (qt : QKeySequenceApi K)
    (sm : ShortcutManager) (w : MainWindow K cb) (name : String) (f : cb)
    (l : ShortcutObject K cb) (hl : l ∈ (regShortcut_QString_T qt sm w name f).2.children) :
    l ∈ w.children ∨ l.activated = [f] := by
  unfold regShortcut_QString_T regShortcut_QKeySequence_T at hl
  split_ifs at hl
  · exact Or.inl hl
  · simp only [List.mem_append, List.mem_singleton] at hl
    rcases hl with h | h
    · exact Or.inl h
    · exact Or.inr (by rw [h])

/-- The listeners created by the brush loop of `toolbarInit`. -/
theorem mem_children_brush_loop (qt : QKeySequenceApi K) (brushes : List (Brush K))
    (w : MainWindow K Slot) (l : ShortcutObject K Slot)
    (hl : l ∈ (brushes.foldl
      (fun w item =>
        (regShortcut_QKeySequence_T_U qt w item.shortcut (.brushPressed item.name)
          .restoreAction).2) w).children) :
    l ∈ w.children ∨ ∃ item ∈ brushes,
      l = ⟨.SingleShortcut, item.shortcut, [.brushPressed item.name], [.restoreAction]⟩ := by
  induction brushes generalizing w with
  | nil => exact Or.inl hl
  | cons b bs ih =>
    rcases ih _ hl with h | ⟨item, hmem, h⟩
    · rcases mem_children_regShortcut_QKeySequence_T_U qt w _ _ _ l h with h2 | h2
      · exact Or.inl h2
      · exact Or.inr ⟨b, List.mem_cons_self _ _, h2⟩
    · exact Or.inr ⟨item, List.mem_cons_of_mem _ hmem, h⟩

/-- A listener of the window after `toolbarInit` whose press slot is a brush
lambda was created by the brush loop. -/
theorem brush_listener_of_toolbarInit (qt : QKeySequenceApi K) (sm : ShortcutManager)
    (brushes : List (Brush K)) (pickerIsButton moveToolIsButton : Bool)
    (l : ShortcutObject K Slot)
    (hl : l ∈ (toolbarInit qt sm brushes pickerIsButton moveToolIsButton
      MainWindow.fresh).children)
    (action : String) (hpress : l.activated = [.brushPressed action]) :
    ∃ item ∈ brushes,
      l = ⟨.SingleShortcut, item.shortcut, [.brushPressed item.name], [.restoreAction]⟩ := by
  unfold toolbarInit at hl
  simp only at hl
  have step : ∀ (w : MainWindow K Slot) (name : String) (f : Slot),
      l ∈ (regShortcut_QString_T qt sm w name f).2.children →
      f ≠ .brushPressed action → l ∈ w.children := by
    intro w name f h hf
    rcases mem_children_regShortcut_QString_T qt sm w name f l h with h2 | h2
    · exact h2
    · rw [hpress] at h2
      simp only [List.cons.injEq, and_true] at h2
      exact absurd h2.symm hf
  have h1 := step _ _ _ hl (by simp)
  have h2 := step _ _ _ h1 (by simp)
  have h3 := step _ _ _ h2 (by simp)
  have h4 := step _ _ _ h3 (by simp)
  have h5 := step _ _ _ h4 (by simp)
  have h6 := step _ _ _ h5 (by simp)
  have button : ∀ (w : MainWindow K Slot) (key : K) (b : ToolButton),
      l ∈ (addToolButtonShortcut w key b).children → l ∈ w.children := by
    intro w key b h
    simp only [addToolButtonShortcut, List.mem_append, List.mem_singleton] at h
    rcases h with h | h
    · exact h
    · rw [h] at hpress
      simp at hpress
  have h7 : l ∈ (brushes.foldl
      (fun w item =>
        (regShortcut_QKeySequence_T_U qt w item.shortcut (.brushPressed item.name)
          .restoreAction).2) (MainWindow.fresh : MainWindow K Slot)).children := by
    cases pickerIsButton <;> cases moveToolIsButton <;>
      simp only [if_true, if_false, Bool.false_eq_true] at h6
    · exact h6
    · exact button _ _ _ h6
    · exact button _ _ _ h6
    · exact button _ _ _ (button _ _ _ h6)
  rcases mem_children_brush_loop qt brushes _ l h7 with h | h
  · simp [MainWindow.fresh] at h
  · exact h

/-- C13: a listener left by `toolbarInit` whose press slot is the lambda of a
brush shortcut is a `SingleShortcut` with `restoreAction` as release slot.
When some brush action is checked, its key-down stores that action in
`lastBrushAction` and triggers the brush action of the shortcut; the key-up
that follows triggers the stored action, so after the pair the checked brush
action, and the brush of the canvas, is the one checked before the key-down. -/
theorem brush_shortcut_restores_previous_tool (qt : QKeySequenceApi K) (sm : ShortcutManager)
    (brushes : List (Brush K)) (pickerIsButton moveToolIsButton : Bool)
    (l : ShortcutObject K Slot)
    (hl : l ∈ (toolbarInit qt sm brushes pickerIsButton moveToolIsButton
      MainWindow.fresh).children)
    (action : String) (hpress : l.activated = [.brushPressed action])
    (t : BrushTools) (previous : String) (hchecked : t.checkedAction = some previous) :
    l.cls = .SingleShortcut ∧ l.inactivated = [.restoreAction] ∧
    runBrushSlots l.activated t =
      some { checkedAction := some action, lastBrushAction := some previous,
             canvasBrush := some action } ∧
    runBrushSlots l.inactivated
        { checkedAction := some action, lastBrushAction := some previous,
          canvasBrush := some action } =
      some { checkedAction := some previous, lastBrushAction := some previous,
             canvasBrush := some previous } ∧
    ((runBrushSlots l.activated t).bind (runBrushSlots l.inactivated)).map
        (fun t2 => t2.checkedAction) = some t.checkedAction := by
  obtain ⟨item, _, hitem⟩ :=
    brush_listener_of_toolbarInit qt sm brushes pickerIsButton moveToolIsButton l hl action
      hpress
  have hact : item.name = action := by
    rw [hitem] at hpress
    simpa using hpress
  subst hact
  subst hitem
  simp [runBrushSlots, runBrushSlot, QAction.trigger, hchecked]

/-- C13 evaluated on the listener of the brush "Eraser" (key "E") while
"BasicBrush" is checked. -/
theorem brush_shortcut_restores_previous_tool_witness :
    ((⟨.SingleShortcut, "E", [.brushPressed "Eraser"], [.restoreAction]⟩ :
        ShortcutObject String Slot) ∈
        (toolbarInit textKeys pickerOnF12Config exampleBrushes true true
          MainWindow.fresh).children ∧
      (⟨.SingleShortcut, "E", [.brushPressed "Eraser"], [.restoreAction]⟩ :
        ShortcutObject String Slot).activated = [.brushPressed "Eraser"] ∧
      (⟨some "BasicBrush", none, some "BasicBrush"⟩ : BrushTools).checkedAction =
        some "BasicBrush") ∧
    ((runBrushSlots [.brushPressed "Eraser"] ⟨some "BasicBrush", none, some "BasicBrush"⟩).bind
        (runBrushSlots [.restoreAction])).map (fun t2 => t2.checkedAction) =
      some (some "BasicBrush") :=
  ⟨⟨by decide, rfl, rfl⟩,
    (brush_shortcut_restores_previous_tool textKeys pickerOnF12Config exampleBrushes true true
      ⟨.SingleShortcut, "E", [.brushPressed "Eraser"], [.restoreAction]⟩ (by decide)
      "Eraser" rfl ⟨some "BasicBrush", none, some "BasicBrush"⟩ "BasicBrush" rfl).2.2.2.2⟩

end BrushShortcuts

/-! ## Tool buttons -/

/-- C22: `onMoveToolPressed(c)` sets the disabled flag of the brush action
group and of the colour-picker button to `c`; `onColorPickerPressed(c)` sets
the disabled flag of the brush action group and of the move-tool button to
`c`; `onCanvasToolComplete` enables the brush action group and unchecks both
buttons but leaves their disabled flags as they are.  So after
`onColorPickerPressed(true)` and `onCanvasToolComplete` the move-tool button is
still disabled, and after `onMoveToolPressed(true)` and `onCanvasToolComplete`
the colour-picker button is.  Each member is touched only when it is not
null. -/
theorem tool_button_flags (c : Bool) (w : ToolWidgets) :
    ((onMoveToolPressed c w).brushActionGroup_ =
        w.brushActionGroup_.map (fun _ => ⟨c⟩) ∧
      (onMoveToolPressed c w).colorPickerButton_ =
        w.colorPickerButton_.map (fun b => ⟨c, b.checked⟩) ∧
      (onMoveToolPressed c w).moveToolButton_ = w.moveToolButton_ ∧
      (onMoveToolPressed c w).canvasCalls = w.canvasCalls ++ [.onMoveTool c]) ∧
    ((onColorPickerPressed c w).brushActionGroup_ =
        w.brushActionGroup_.map (fun _ => ⟨c⟩) ∧
      (onColorPickerPressed c w).moveToolButton_ =
        w.moveToolButton_.map (fun b => ⟨c, b.checked⟩) ∧
      (onColorPickerPressed c w).colorPickerButton_ = w.colorPickerButton_ ∧
      (onColorPickerPressed c w).canvasCalls = w.canvasCalls ++ [.onColorPicker c]) ∧
    ((onCanvasToolComplete w).brushActionGroup_ =
        w.brushActionGroup_.map (fun _ => ⟨false⟩) ∧
      (onCanvasToolComplete w).colorPickerButton_ =
        w.colorPickerButton_.map (fun b => ⟨b.disabled, false⟩) ∧
      (onCanvasToolComplete w).moveToolButton_ =
        w.moveToolButton_.map (fun b => ⟨b.disabled, false⟩) ∧
      (onCanvasToolComplete w).canvasCalls = w.canvasCalls) ∧
    ((onCanvasToolComplete (onColorPickerPressed true w)).moveToolButton_ =
        w.moveToolButton_.map (fun _ => ⟨true, false⟩) ∧
      (onCanvasToolComplete (onMoveToolPressed true w)).colorPickerButton_ =
        w.colorPickerButton_.map (fun _ => ⟨true, false⟩)) := by
  obtain ⟨group, picker, move, calls⟩ := w
  cases group <;> cases picker <;> cases move <;>
    simp [onMoveToolPressed, onColorPickerPressed, onCanvasToolComplete]

/-- C22 evaluated on a window with all three widgets enabled and the colour
picker checked: after the picker is pressed and the canvas tool completes, the
move-tool button is still disabled. -/
theorem tool_button_flags_witness :
    onCanvasToolComplete
        (onColorPickerPressed true ⟨some ⟨false⟩, some ⟨false, true⟩, some ⟨false, false⟩, []⟩) =
      ⟨some ⟨false⟩, some ⟨false, false⟩, some ⟨true, false⟩, [.onColorPicker true]⟩ ∧
    (onCanvasToolComplete
        (onColorPickerPressed true
          ⟨some ⟨false⟩, some ⟨false, true⟩, some ⟨false, false⟩, []⟩)).moveToolButton_ =
      (some ⟨false, false⟩ : Option QToolButton).map (fun _ => ⟨true, false⟩) :=
  ⟨by decide,
    (tool_button_flags true
      ⟨some ⟨false⟩, some ⟨false, true⟩, some ⟨false, false⟩, []⟩).2.2.2.1⟩

/-! ## Export file names -/

section ExportNames

theorem trimChars_eq_self (isSpace : Char → Bool) (l : List Char)
    (hhead : ∀ c, l.head? = some c → isSpace c = false)
    (hlast : ∀ c, l.getLast? = some c → isSpace c = false) :
    trimChars isSpace l = l := by
  have h1 : l.dropWhile isSpace = l := by
    cases l with
    | nil => rfl
    | cons a as => simp [List.dropWhile, hhead a rfl]
  have h2 : l.reverse.dropWhile isSpace = l.reverse := by
    have hh : ∀ c, l.reverse.head? = some c → isSpace c = false := by
      intro c hc
      exact hlast c (by simpa using hc)
    cases hr : l.reverse with
    | nil => rfl
    | cons a as =>
      rw [hr] at hh
      simp [List.dropWhile, hh a rfl]
  unfold trimChars
  rw [h1, h2, List.reverse_reverse]

theorem head?_trimChars (isSpace : Char → Bool) (l : List Char) (c : Char)
    (hc : (trimChars isSpace l).head? = some c) : isSpace c = false := by
  have hsuffix := List.dropWhile_suffix isSpace (l := (l.dropWhile isSpace).reverse)
  obtain ⟨pre, hpre⟩ := hsuffix
  have hd : l.dropWhile isSpace = trimChars isSpace l ++ pre.reverse := by
    have := congrArg List.reverse hpre
    simpa [trimChars] using this.symm
  have hhead : (l.dropWhile isSpace).head? = some c := by
    rw [hd, List.head?_append, hc]
    rfl
  have hnot := List.head?_dropWhile_not isSpace l
  rw [hhead] at hnot
  exact hnot

theorem getLast?_trimChars (isSpace : Char → Bool) (l : List Char) (c : Char)
    (hc : (trimChars isSpace l).getLast? = some c) : isSpace c = false := by
  unfold trimChars at hc
  rw [List.getLast?_reverse] at hc
  have hnot := List.head?_dropWhile_not isSpace (l.dropWhile isSpace).reverse
  rw [hc] at hnot
  exact hnot

theorem QString.trimmed_eq_empty_iff (qchar : QCharApi) (s : String) :
    QString.trimmed qchar s = "" ↔ trimChars qchar.isSpace s.data = [] := by
  unfold QString.trimmed
  constructor
  · intro h
    have := congrArg String.data h
    simpa using this
  · intro h
    rw [h]

/-- A normalised name ends with the extension and is a fixed point of the
normalisation, for an extension whose last character is not a space. -/
theorem normalisedExportName_fixed (qchar : QCharApi) (ext f p : String)
    (pre : List Char) (last : Char) (hext : ext.data = pre ++ [last])
    (hlast : qchar.isSpace last = false)
    (hp : normalisedExportName qchar ext f = some p) :
    QString.endsWithCaseInsensitive qchar p ext = true ∧
    normalisedExportName qchar ext p = some p := by
  have hfix : ∀ q : String, q.data ≠ [] →
      (∀ c, q.data.head? = some c → qchar.isSpace c = false) →
      (∀ c, q.data.getLast? = some c → qchar.isSpace c = false) →
      QString.endsWithCaseInsensitive qchar q ext = true →
      normalisedExportName qchar ext q = some q := by
    intro q hne hh hl hends
    have htrim : QString.trimmed qchar q = q := by
      unfold QString.trimmed
      rw [trimChars_eq_self qchar.isSpace q.data hh hl]
    have hq : q ≠ "" := by
      intro h
      apply hne
      rw [h]
    simp [normalisedExportName, htrim, hq, hends]
  unfold normalisedExportName at hp
  by_cases hempty : QString.trimmed qchar f = ""
  · simp [hempty] at hp
  · have hdata : (QString.trimmed qchar f).data = trimChars qchar.isSpace f.data := rfl
    have hne : (QString.trimmed qchar f).data ≠ [] := by
      rw [hdata]
      intro h
      exact hempty ((QString.trimmed_eq_empty_iff qchar f).mpr h)
    have hh : ∀ c, (QString.trimmed qchar f).data.head? = some c →
        qchar.isSpace c = false := by
      intro c hc
      exact head?_trimChars qchar.isSpace f.data c (by rw [← hdata]; exact hc)
    have hl : ∀ c, (QString.trimmed qchar f).data.getLast? = some c →
        qchar.isSpace c = false := by
      intro c hc
      exact getLast?_trimChars qchar.isSpace f.data c (by rw [← hdata]; exact hc)
    by_cases hends : QString.endsWithCaseInsensitive qchar (QString.trimmed qchar f) ext = true
    · simp only [hempty, if_false, hends, if_true, Option.some.injEq] at hp
      subst hp
      exact ⟨hends, hfix _ hne hh hl hends⟩
    · simp only [hempty, if_false, hends, Bool.false_eq_true, Option.some.injEq] at hp
      subst hp
      have hends2 : QString.endsWithCaseInsensitive qchar (QString.trimmed qchar f ++ ext) ext
          = true := by
        simp [QString.endsWithCaseInsensitive]
      refine ⟨hends2, hfix _ ?_ ?_ ?_ hends2⟩
      · simp [hne]
      · intro c hc
        rw [String.data_append, List.head?_append_of_ne_nil _ hne] at hc
        exact hh c hc
      · intro c hc
        rw [String.data_append, hext] at hc
        simp at hc
        rw [← hc]
        exact hlast

theorem exportAllToFile_eq_normalised (qchar : QCharApi) (f : String) :
    exportAllToFile qchar f = normalisedExportName qchar ".png" f := by
  unfold exportAllToFile normalisedExportName
  by_cases h : QString.trimmed qchar f = ""
  · simp [h, QString.isEmpty_iff]
  · cases hends : QString.endsWithCaseInsensitive qchar (QString.trimmed qchar f) ".png" <;>
      simp [h, hends, QString.isEmpty_iff]

theorem exportVisibleToFile_eq_normalised (qchar : QCharApi) (f : String) :
    exportVisibleToFile qchar f = normalisedExportName qchar ".png" f := by
  unfold exportVisibleToFile normalisedExportName
  by_cases h : QString.trimmed qchar f = ""
  · simp [h, QString.isEmpty_iff]
  · cases hends : QString.endsWithCaseInsensitive qchar (QString.trimmed qchar f) ".png" <;>
      simp [h, hends, QString.isEmpty_iff]

theorem exportToPSD_eq_normalised (qchar : QCharApi) (f : String) :
    exportToPSD qchar f = normalisedExportName qchar ".psd" f := by
  unfold exportToPSD normalisedExportName
  by_cases h : QString.trimmed qchar f = ""
  · simp [h, QString.isEmpty_iff]
  · cases hends : QString.endsWithCaseInsensitive qchar (QString.trimmed qchar f) ".psd" <;>
      simp [h, hends, QString.isEmpty_iff]

/-- C21: each of `exportAllToFile`, `exportVisibleToFile` (extension ".png")
and `exportToPSD` (extension ".psd") saves nothing when the trimmed name is
empty, and otherwise writes to the trimmed name when that already ends with
the extension compared case-insensitively and to the trimmed name followed by
the extension otherwise.  The written path therefore always ends with the
extension case-insensitively, and choosing a written path again gives the
same path.  This is proved for character functions under which the letters
g and d are not whitespace. -/
theorem export_file_name_normalisation (qchar : QCharApi)
    (hg : qchar.isSpace 'g' = false) (hd : qchar.isSpace 'd' = false) (f : String) :
    (exportAllToFile qchar f = normalisedExportName qchar ".png" f ∧
      exportVisibleToFile qchar f = normalisedExportName qchar ".png" f ∧
      exportToPSD qchar f = normalisedExportName qchar ".psd" f) ∧
    (∀ p, exportAllToFile qchar f = some p →
      QString.endsWithCaseInsensitive qchar p ".png" = true ∧
      exportAllToFile qchar p = some p) ∧
    (∀ p, exportVisibleToFile qchar f = some p →
      QString.endsWithCaseInsensitive qchar p ".png" = true ∧
      exportVisibleToFile qchar p = some p) ∧
    (∀ p, exportToPSD qchar f = some p →
      QString.endsWithCaseInsensitive qchar p ".psd" = true ∧
      exportToPSD qchar p = some p) := by
  refine ⟨⟨exportAllToFile_eq_normalised qchar f, exportVisibleToFile_eq_normalised qchar f,
    exportToPSD_eq_normalised qchar f⟩, ?_, ?_, ?_⟩
  · intro p hp
    rw [exportAllToFile_eq_normalised] at hp
    rw [exportAllToFile_eq_normalised]
    exact normalisedExportName_fixed qchar ".png" f p ['.', 'p', 'n'] 'g' rfl hg hp
  · intro p hp
    rw [exportVisibleToFile_eq_normalised] at hp
    rw [exportVisibleToFile_eq_normalised]
    exact normalisedExportName_fixed qchar ".png" f p ['.', 'p', 'n'] 'g' rfl hg hp
  · intro p hp
    rw [exportToPSD_eq_normalised] at hp
    rw [exportToPSD_eq_normalised]
    exact normalisedExportName_fixed qchar ".psd" f p ['.', 'p', 's'] 'd' rfl hd hp

/-- C21 evaluated on a name with surrounding blanks and an upper-case
extension, on a name without extension, and on a blank name. -/
theorem export_file_name_normalisation_witness :
    (asciiChars.isSpace 'g' = false ∧ asciiChars.isSpace 'd' = false) ∧
    exportAllToFile asciiChars "  sketch.PNG " = some "sketch.PNG" ∧
    exportAllToFile asciiChars "sketch.PNG" = some "sketch.PNG" ∧
    exportToPSD asciiChars " my sketch" = some "my sketch.psd" ∧
    exportVisibleToFile asciiChars "   " = none :=
  ⟨⟨by decide, by decide⟩, by decide,
    ((export_file_name_normalisation asciiChars (by decide) (by decide)
      "  sketch.PNG ").2.1 "sketch.PNG" (by decide)).2,
    by decide, by decide⟩

end ExportNames

/-! ## Brush settings controls -/

section BrushSettings

variable {V W B C : Type}

theorem get_syncField (api : BrushControlsApi V W B C) (hlaw : api.Lawful)
    (f g : BrushField) (v : Int) (s : W × List (SetterCall C)) :
    api.get g (syncField api f v s).1 = if g = f then v else api.get g s.1 := by
  unfold syncField
  by_cases hv : api.get f s.1 = v
  · by_cases hg : g = f
    · subst hg
      simp [hv]
    · simp [hv, hg]
  · by_cases hg : g = f
    · subst hg
      simp [hv, hlaw.get_set]
    · simp [hv, hg, hlaw.get_set_other f g v s.1 hg]

theorem calls_syncField (api : BrushControlsApi V W B C) (f : BrushField) (v : Int)
    (s : W × List (SetterCall C)) :
    (syncField api f v s).2 =
      s.2 ++ (if api.get f s.1 = v then [] else [SetterCall.set f v]) := by
  unfold syncField
  by_cases hv : api.get f s.1 = v <;> simp [hv]

theorem syncField_of_eq (api : BrushControlsApi V W B C) (f : BrushField) (v : Int)
    (s : W × List (SetterCall C)) (h : api.get f s.1 = v) : syncField api f v s = s := by
  simp [syncField, h]

/-- What `onBrushSettingsChanged` achieves under an assumption on the classes
it calls: when the brush-settings control exists and the accessors of the
control and of the colour box behave as plain accessors, then after
`onBrushSettingsChanged(m)` the six values of the control equal the integer
values of the fields of `m` (0 for a missing field) and the colour box holds
the colour built from the red, green and blue fields of `m["color"]`; the
setters called are, in the order width, hardness, thickness, water, extend,
mixin, colour, exactly those of the fields whose value before the call
differed; and a second call with the same `m` calls no setter and changes
nothing.  Whether `BrushSettingsWidget` and `ColorBox` meet the assumption is
not decided by mainwindow.cpp. -/
theorem onBrushSettingsChanged_synchronises [DecidableEq C]
    (api : BrushControlsApi V W B C) (hlaw : api.Lawful) (m : List (String × V))
    (control : W) (box : B) :
    (∃ control2,
      (onBrushSettingsChanged api m ⟨some control, box⟩).1.brushSettingControl_
        = some control2 ∧
      ∀ f : BrushField, api.get f control2 = intField api m f.key) ∧
    api.color (onBrushSettingsChanged api m ⟨some control, box⟩).1.colorBox =
      brushColor api m ∧
    (onBrushSettingsChanged api m ⟨some control, box⟩).2 =
      ([BrushField.width, .hardness, .thickness, .water, .extend, .mixin].flatMap
        (fun f => if api.get f control = intField api m f.key then []
          else [SetterCall.set f (intField api m f.key)])) ++
      (if api.color box = brushColor api m then []
        else [SetterCall.setColor (brushColor api m)]) ∧
    (onBrushSettingsChanged api m (onBrushSettingsChanged api m ⟨some control, box⟩).1).2
      = [] ∧
    (onBrushSettingsChanged api m (onBrushSettingsChanged api m ⟨some control, box⟩).1).1.colorBox
      = (onBrushSettingsChanged api m ⟨some control, box⟩).1.colorBox ∧
    (onBrushSettingsChanged api m
        (onBrushSettingsChanged api m ⟨some control, box⟩).1).1.brushSettingControl_
      = (onBrushSettingsChanged api m ⟨some control, box⟩).1.brushSettingControl_ := by
  -- the control after the six statements
  have hctl : (onBrushSettingsChanged api m ⟨some control, box⟩).1.brushSettingControl_ =
      some (syncField api .mixin (intField api m "mixin")
        (syncField api .extend (intField api m "extend")
          (syncField api .water (intField api m "water")
            (syncField api .thickness (intField api m "thickness")
              (syncField api .hardness (intField api m "hardness")
                (syncField api .width (intField api m "width")
                  (control, ([] : List (SetterCall C))))))))).1 := by
    by_cases hc : api.color box = brushColor api m <;>
      simp [onBrushSettingsChanged, hc]
  have hget : ∀ f : BrushField,
      api.get f (syncField api .mixin (intField api m "mixin")
        (syncField api .extend (intField api m "extend")
          (syncField api .water (intField api m "water")
            (syncField api .thickness (intField api m "thickness")
              (syncField api .hardness (intField api m "hardness")
                (syncField api .width (intField api m "width")
                  (control, ([] : List (SetterCall C))))))))).1 = intField api m f.key := by
    intro f
    cases f <;> simp [get_syncField api hlaw, BrushField.key]
  have hbox : api.color (onBrushSettingsChanged api m ⟨some control, box⟩).1.colorBox =
      brushColor api m := by
    unfold onBrushSettingsChanged
    by_cases hc : api.color box = brushColor api m
    · simp [hc]
    · simp [hc, hlaw.color_setColor]
  refine ⟨⟨_, hctl, hget⟩, hbox, ?_, ?_, ?_, ?_⟩
  · unfold onBrushSettingsChanged
    by_cases hc : api.color box = brushColor api m <;>
      simp [hc, calls_syncField, get_syncField api hlaw, BrushField.key]
  · have h2 : ∀ (w : W) (b : B), (∀ f : BrushField, api.get f w = intField api m f.key) →
        api.color b = brushColor api m →
        (onBrushSettingsChanged api m ⟨some w, b⟩).2 = [] := by
      intro w b hw hb
      have h1 := hw .width
      have h2 := hw .hardness
      have h3 := hw .thickness
      have h4 := hw .water
      have h5 := hw .extend
      have h6 := hw .mixin
      simp only [BrushField.key] at h1 h2 h3 h4 h5 h6
      unfold onBrushSettingsChanged
      simp [hb, syncField, h1, h2, h3, h4, h5, h6]
    have hstate : (onBrushSettingsChanged api m ⟨some control, box⟩).1 =
        ⟨(onBrushSettingsChanged api m ⟨some control, box⟩).1.brushSettingControl_,
          (onBrushSettingsChanged api m ⟨some control, box⟩).1.colorBox⟩ := rfl
    rw [hstate, hctl]
    exact h2 _ _ hget hbox
  · have h2 : ∀ (w : Option W) (b : B), api.color b = brushColor api m →
        (onBrushSettingsChanged api m ⟨w, b⟩).1.colorBox = b := by
      intro w b hb
      unfold onBrushSettingsChanged
      simp [hb]
    exact h2 _ _ hbox
  · have h2 : ∀ (w : W) (b : B), (∀ f : BrushField, api.get f w = intField api m f.key) →
        (onBrushSettingsChanged api m ⟨some w, b⟩).1.brushSettingControl_ = some w := by
      intro w b hw
      have h1 := hw .width
      have h2 := hw .hardness
      have h3 := hw .thickness
      have h4 := hw .water
      have h5 := hw .extend
      have h6 := hw .mixin
      simp only [BrushField.key] at h1 h2 h3 h4 h5 h6
      by_cases hc : api.color b = brushColor api m <;>
        simp [onBrushSettingsChanged, hc, syncField, h1, h2, h3, h4, h5, h6]
    have hstate : (onBrushSettingsChanged api m ⟨some control, box⟩).1 =
        ⟨(onBrushSettingsChanged api m ⟨some control, box⟩).1.brushSettingControl_,
          (onBrushSettingsChanged api m ⟨some control, box⟩).1.colorBox⟩ := rfl
    rw [hstate, hctl]
    exact h2 _ _ hget

theorem plainBrushControls_lawful : plainBrushControls.Lawful where
  get_set := by
    intro f v w
    cases f <;> rfl
  get_set_other := by
    intro f g v w h
    cases f <;> cases g <;> first | rfl | exact absurd rfl h
  color_setColor := by
    intro c b
    rfl

/-- The synchronisation evaluated on a control showing width 1 and hardness 50
and a black colour box, for a map with width 5, hardness 50 and the colour red: `setWidth`
and `setColor` are called, and a second call calls nothing. -/
theorem onBrushSettingsChanged_synchronises_witness :
    plainBrushControls.Lawful ∧
    (onBrushSettingsChanged plainBrushControls
        [("width", .inl 5), ("hardness", .inl 50),
          ("color", .inr [("red", 255), ("green", 0), ("blue", 0)])]
        ⟨some ⟨1, 50, 0, 0, 0, 0⟩, (0, 0, 0)⟩).2 =
      [.set .width 5, .setColor (255, 0, 0)] ∧
    (onBrushSettingsChanged plainBrushControls
        [("width", .inl 5), ("hardness", .inl 50),
          ("color", .inr [("red", 255), ("green", 0), ("blue", 0)])]
        (onBrushSettingsChanged plainBrushControls
          [("width", .inl 5), ("hardness", .inl 50),
            ("color", .inr [("red", 255), ("green", 0), ("blue", 0)])]
          ⟨some ⟨1, 50, 0, 0, 0, 0⟩, (0, 0, 0)⟩).1).2 = [] :=
  ⟨plainBrushControls_lawful, by decide,
    (onBrushSettingsChanged_synchronises plainBrushControls plainBrushControls_lawful
      [("width", .inl 5), ("hardness", .inl 50),
        ("color", .inr [("red", 255), ("green", 0), ("blue", 0)])]
      ⟨1, 50, 0, 0, 0, 0⟩ (0, 0, 0)).2.2.2.1⟩

end BrushSettings

end Paintty
